import Mathlib

/-!
# Help listing and guild-create listener of the worker

A shallow embedding of `HelpCommand.Execute`
(`bot/command/impl/general/help.go`): the grouping of the registry's commands
by category in an insertion-ordered map, the eligibility checks, the
per-category sort by name and the assembly of the help embed; and of
`OnGuildCreate`, `sendIntroMessage` and `getInviter`
(`bot/listeners/guildcreate.go`), as the sequence of calls they make.

Go values are embedded as follows.

* `uint64` identifiers (user, guild, bot, command ids) are only compared and
  passed on, never computed with: they are `Nat`.
* `string` is `String`; Go compares strings bytewise, Lean by code point, and
  the two orders agree on valid UTF-8.
* `interface{}` values stored in the ordered map are `nil` or a
  `[]registry.Command`: they are `Option (List Command)`.
* A call returning `(value, error)` is an `Except`.
* The effects of `Execute` (errors handed to `ctx.HandleError`, the call of
  `command.LoadCommandIds`, the calls of `registry.FormatHelp` that feed each
  `AddField`, and the response handed to `ctx.ReplyWith`) are returned in an
  `Outcome` record.
-/

namespace Worker

/-- The type `command.Category`, a Go string type. -/
abbrev Category := String

/-- Modelled from the spec: `permission.PermissionLevel`, declared in another
package; the spec describes it as an ordered enumeration
(`Everyone < Support < Admin`), which Go compares as integers. -/
abbrev PermissionLevel := Int

/-- The constant `permission.Everyone`. -/
def Everyone : PermissionLevel := 0

/-- The constant `permission.Support`. -/
def Support : PermissionLevel := 1

/-- The constant `permission.Admin`. -/
def Admin : PermissionLevel := 2

/-- The type `interaction.ApplicationCommandType`, an unsigned integer type. -/
abbrev ApplicationCommandType := Nat

/-- The constant `interaction.ApplicationCommandTypeChatInput`. -/
def ApplicationCommandTypeChatInput : ApplicationCommandType := 1

/-- Go's `error` values, identified by their message. -/
abbrev Error := String

/-- The struct `registry.Properties`, with the fields that `help.go` sets or
reads. `Type_` is the Go field `Type`. -/
structure Properties where
  Name : String
  Description : String
  Type_ : ApplicationCommandType
  Aliases : List String
  PermissionLevel : PermissionLevel
  Category : Category
  AdminOnly : Bool
  HelperOnly : Bool
  MainBotOnly : Bool
  DefaultEphemeral : Bool
  Timeout : Nat
deriving DecidableEq, Repr

/-- The interface `registry.Command`, observed through `Properties()`. -/
structure Command where
  Properties : Properties
deriving DecidableEq, Repr

/-- The registry, as the sequence in which `range c.Registry` yields its
commands. Every list is a possible iteration order. -/
abbrev Registry := List Command

/-- The struct `HelpCommand`. -/
structure HelpCommand where
  Registry : Registry

/-- The part of `worker.Context` that `Execute` reads. -/
structure WorkerContext where
  BotId : Nat
  IsWhitelabel : Bool

/-- The result of `command.LoadCommandIds`: a Go `map[string]uint64`, as the
finite lookup it provides. -/
abbrev CommandIds := String → Option Nat

/-- One field of an embed, as added by `AddField(name, value, inline)`. -/
structure EmbedField where
  Name : String
  Value : String
  Inline : Bool
deriving DecidableEq, Repr

/-- The struct `embed.Embed`, with the parts that `Execute` and the guild-create
listener set. A new embed has an empty description. -/
structure Embed where
  Title : String
  Color : Int
  Fields : List EmbedField
  Footer : Option (String × String)
  Description : String := ""
deriving DecidableEq, Repr

/-- The interface `registry.CommandContext`, with the methods `Execute` calls.
`ReplyWith` gives the error that the call returns, if any. -/
structure CommandContext where
  Worker : WorkerContext
  UserId : Nat
  GuildId : Nat
  UserPermissionLevel : Except Error PermissionLevel
  PremiumTier : Int
  GetColour : Int → Int
  GetMessage : String → String
  ReplyWith : Embed → Option Error

/-- Modelled from the spec: the declarations of other packages that `Execute`
uses, which are parameters of the model: `command.Categories` (the fixed
category order), `utils.IsBotAdmin`, `utils.IsBotHelper`,
`command.LoadCommandIds`, `registry.FormatHelp`, `premium.None`,
`customisation.Green` and `i18n.TitleHelp`. -/
structure Packages where
  Categories : List Category
  IsBotAdmin : Nat → Bool
  IsBotHelper : Nat → Bool
  LoadCommandIds : WorkerContext → Nat → Except Error CommandIds
  FormatHelp : Command → Nat → Option Nat → String
  PremiumNone : Int
  Green : Int
  TitleHelp : String

/-! ## The insertion-ordered map (`elliotchance/orderedmap`) -/

/-- An `orderedmap.OrderedMap` with `Category` keys: the entries in insertion
order. -/
abbrev OrderedMap := List (Category × Option (List Command))

namespace OrderedMap

/-- Translation of `orderedmap.NewOrderedMap()`. -/
def NewOrderedMap : OrderedMap := []

/-- Translation of `Get(key)`: `none` is `ok == false`. -/
def Get : OrderedMap → Category → Option (Option (List Command))
  | [], _ => none
  | (k, v) :: rest, key => if k = key then some v else Get rest key

/-- Translation of `Set(key, value)`: an existing key keeps its place and gets
the new value, a new key is added at the end. -/
def Set : OrderedMap → Category → Option (List Command) → OrderedMap
  | [], key, value => [(key, value)]
  | (k, v) :: rest, key, value =>
    if k = key then (k, value) :: rest else (k, v) :: Set rest key value

/-- Translation of `Keys()`: the keys in insertion order. -/
def Keys (m : OrderedMap) : List Category := m.map Prod.fst

end OrderedMap

/-! ## `HelpCommand.Execute` -/

/-- Lines 41-46: the map seeded with `command.Categories`, every value `nil`. -/
def initCategories (categories : List Category) : OrderedMap :=
  categories.foldl (fun m category => OrderedMap.Set m category none) OrderedMap.NewOrderedMap

/-- Lines 61-90: the body of the loop over the registry, for one command. Each
`continue` leaves the map as it is. -/
def groupStep (p : Packages) (ctx : CommandContext) (permLevel : PermissionLevel)
    (commandCategories : OrderedMap) (cmd : Command) : OrderedMap :=
  let properties := cmd.Properties
  if (properties.AdminOnly && !p.IsBotAdmin ctx.UserId)
      || (properties.HelperOnly && !p.IsBotHelper ctx.UserId) then
    commandCategories
  else if properties.Type_ != ApplicationCommandTypeChatInput then
    commandCategories
  else if properties.MainBotOnly && ctx.Worker.IsWhitelabel then
    commandCategories
  else if permLevel ≥ cmd.Properties.PermissionLevel then
    let current : List Command :=
      match OrderedMap.Get commandCategories properties.Category with
      | some (some commands) => commands
      | some none => []
      | none => []
    OrderedMap.Set commandCategories properties.Category (some (current ++ [cmd]))
  else
    commandCategories

/-- Lines 60-91: the loop over the registry. -/
def groupCommands (p : Packages) (ctx : CommandContext) (permLevel : PermissionLevel)
    (registry : Registry) (commandCategories : OrderedMap) : OrderedMap :=
  registry.foldl (groupStep p ctx permLevel) commandCategories

/-- The order `a ≤ b` of strings, decided on their character lists. -/
def nameLeDecidable (a b : String) : Decidable (a ≤ b) :=
  decidable_of_iff (a.toList ≤ b.toList) String.le_iff_toList_le.symm

/-- Lines 107-109: `sort.Slice` with `less` comparing `Properties().Name`.
`sort.Slice` (Go's standard library) returns a rearrangement of the slice in
which no element is `less` than an earlier one, and is not stable. The model is
one such sort; `sortSlice_unique` shows that on commands with distinct names
every such sort returns the same list. -/
def sortSlice (commands : List Command) : List Command :=
  @List.insertionSort Command (fun a b => a.Properties.Name ≤ b.Properties.Name)
    (fun a b => nameLeDecidable a.Properties.Name b.Properties.Name) commands

/-- One call `registry.FormatHelp(cmd, ctx.GuildId(), commandId)`. -/
structure FormatHelpCall where
  cmd : Command
  guildId : Nat
  commandId : Option Nat
deriving DecidableEq, Repr

/-- One rendered section: the category that titles the `AddField` call and the
calls of `registry.FormatHelp` whose results are joined into its value. -/
structure HelpSection where
  title : Category
  calls : List FormatHelpCall
deriving DecidableEq, Repr

/-- Lines 98-123: the body of the loop over the keys, for one category. `none`
is the case `len(commands) == 0`, in which no field is added. -/
def renderCategory (ctx : CommandContext) (commandIds : CommandIds)
    (commandCategories : OrderedMap) (category : Category) : Option HelpSection :=
  let commands : List Command :=
    match OrderedMap.Get commandCategories category with
    | some (some retrieved) => retrieved
    | some none => []
    | none => []
  let commands := sortSlice commands
  if commands.length > 0 then
    some { title := category
           calls := commands.map (fun cmd =>
             { cmd := cmd, guildId := ctx.GuildId, commandId := commandIds cmd.Properties.Name }) }
  else
    none

/-- Lines 97-124: the loop over `commandCategories.Keys()`. -/
def renderSections (ctx : CommandContext) (commandIds : CommandIds)
    (commandCategories : OrderedMap) : List HelpSection :=
  (OrderedMap.Keys commandCategories).filterMap (renderCategory ctx commandIds commandCategories)

/-- Lines 112-122: the field added for one section, its value the formatted
lines joined by a newline (`strings.Join(formatted, "\n")`). -/
def sectionField (p : Packages) (s : HelpSection) : EmbedField :=
  { Name := s.title
    Value := "\n".intercalate (s.calls.map (fun c => p.FormatHelp c.cmd c.guildId c.commandId))
    Inline := false }

/-- What one run of `Execute` does: the errors handed to `ctx.HandleError`,
whether `command.LoadCommandIds` was called, the rendered sections, and the
embed handed to `ctx.ReplyWith` (`none` when no reply is sent). -/
structure Outcome where
  handled : List Error
  loadedCommandIds : Bool
  sections : List HelpSection
  reply : Option Embed

/-- Translation of `HelpCommand.Execute`. The value returned by
`ctx.ReplyWith` is discarded (`_, _ = ctx.ReplyWith(...)`). -/
def HelpCommand.Execute (p : Packages) (c : HelpCommand) (ctx : CommandContext) : Outcome :=
  let commandCategories := initCategories p.Categories
  match ctx.UserPermissionLevel with
  | .error err => { handled := [err], loadedCommandIds := false, sections := [], reply := none }
  | .ok permLevel =>
    match p.LoadCommandIds ctx.Worker ctx.Worker.BotId with
    | .error err => { handled := [err], loadedCommandIds := true, sections := [], reply := none }
    | .ok commandIds =>
      let commandCategories := groupCommands p ctx permLevel c.Registry commandCategories
      let sections := renderSections ctx commandIds commandCategories
      let embed : Embed :=
        { Title := ctx.GetMessage p.TitleHelp
          Color := ctx.GetColour p.Green
          Fields := sections.map (sectionField p)
          Footer := if ctx.PremiumTier = p.PremiumNone then
            some ("Powered by nysrp.xyz",
              "https://nystickets.s3.eu-north-1.amazonaws.com/nystickets/nys.png")
          else none }
      let _ := ctx.ReplyWith embed
      { handled := [], loadedCommandIds := true, sections := sections, reply := some embed }

/-! ## The scenario of the specification -/

/-- A slash command with the given name, level and category and no restriction. -/
def mkCommand (name : String) (level : PermissionLevel) (category : Category) : Command :=
  { Properties :=
    { Name := name, Description := "", Type_ := ApplicationCommandTypeChatInput, Aliases := [],
      PermissionLevel := level, Category := category, AdminOnly := false, HelperOnly := false,
      MainBotOnly := false, DefaultEphemeral := false, Timeout := 0 } }

/-- The scenario's packages: `Categories = [General, Settings, Moderation]`, no
bot admins or helpers, an empty id mapping, and a formatter that prints the
name. -/
def scenarioPackages : Packages :=
  { Categories := ["General", "Settings", "Moderation"]
    IsBotAdmin := fun _ => false
    IsBotHelper := fun _ => false
    LoadCommandIds := fun _ _ => .ok (fun _ => none)
    FormatHelp := fun cmd _ _ => cmd.Properties.Name
    PremiumNone := 0
    Green := 0
    TitleHelp := "Help" }

/-- The scenario's registry: `ping` (Everyone, General), `addadmin` (Admin,
Settings) and `ban` (Admin, Moderation). -/
def scenarioHelp : HelpCommand :=
  { Registry := [mkCommand "ban" Admin "Moderation", mkCommand "ping" Everyone "General",
      mkCommand "addadmin" Admin "Settings"] }

/-- A caller of the given level on the main bot. -/
def scenarioContext (level : PermissionLevel) : CommandContext :=
  { Worker := { BotId := 1, IsWhitelabel := false }
    UserId := 7
    GuildId := 9
    UserPermissionLevel := .ok level
    PremiumTier := 1
    GetColour := fun c => c
    GetMessage := fun m => m
    ReplyWith := fun _ => none }

/-! ## Derived notions used to state the properties -/

/-- The commands stored under a key, with `nil` and a missing key read as the
empty slice, as both loops of `Execute` read the map. -/
def groupOf (m : OrderedMap) (key : Category) : List Command :=
  match OrderedMap.Get m key with
  | some (some commands) => commands
  | some none => []
  | none => []

/-- The four checks of the loop over the registry, as one condition: the
command is appended to its category exactly when this holds
(`groupStep_eq`). -/
def eligible (p : Packages) (ctx : CommandContext) (permLevel : PermissionLevel)
    (cmd : Command) : Bool :=
  !((cmd.Properties.AdminOnly && !p.IsBotAdmin ctx.UserId)
      || (cmd.Properties.HelperOnly && !p.IsBotHelper ctx.UserId))
    && (cmd.Properties.Type_ == ApplicationCommandTypeChatInput)
    && !(cmd.Properties.MainBotOnly && ctx.Worker.IsWhitelabel)
    && decide (permLevel ≥ cmd.Properties.PermissionLevel)

/-- The map after the loop over the registry (line 91), for a resolved
permission level. -/
def helpMap (p : Packages) (c : HelpCommand) (ctx : CommandContext)
    (permLevel : PermissionLevel) : OrderedMap :=
  groupCommands p ctx permLevel c.Registry (initCategories p.Categories)

/-- The titles of the fields of the embed that was sent, in order; empty when
no reply was sent. -/
def embedTitles (o : Outcome) : List String :=
  match o.reply with
  | some e => e.Fields.map (fun f => f.Name)
  | none => []

/-- A command is listed when the formatter was called for it in some rendered
section. -/
def Outcome.lists (o : Outcome) (cmd : Command) : Prop :=
  ∃ s ∈ o.sections, cmd ∈ s.calls.map (fun call => call.cmd)

instance (o : Outcome) (cmd : Command) : Decidable (o.lists cmd) := by
  unfold Outcome.lists
  infer_instance

/-- A registry in which `poll` declares a category, `Extras`, that is not in
the scenario's `Categories`. -/
def strayHelp : HelpCommand :=
  { Registry := [mkCommand "poll" Everyone "Extras", mkCommand "ping" Everyone "General"] }

/-- A registry with three commands of one category, registered out of
alphabetical order. -/
def generalHelp : HelpCommand :=
  { Registry := [mkCommand "ping" Everyone "General", mkCommand "about" Everyone "General",
      mkCommand "help" Everyone "General"] }

/-- The command `setup` of the scenario: restricted to the main bot. -/
def setupCommand : Command :=
  { Properties := { (mkCommand "setup" Everyone "Settings").Properties with MainBotOnly := true } }

/-- A command restricted both to bot admins and to bot helpers. -/
def staffCommand : Command :=
  { Properties := { (mkCommand "staff" Everyone "General").Properties with
      AdminOnly := true, HelperOnly := true } }

/-- The scenario's packages with the given answers of `utils.IsBotAdmin` and
`utils.IsBotHelper`. -/
def staffPackages (admin helper : Bool) : Packages :=
  { scenarioPackages with IsBotAdmin := fun _ => admin, IsBotHelper := fun _ => helper }

/-- A caller of the given level on a whitelabel deployment. -/
def whitelabelContext (level : PermissionLevel) : CommandContext :=
  { scenarioContext level with Worker := { BotId := 2, IsWhitelabel := true } }

/-- A caller of the given level to whom no reply can be delivered. -/
def unreachableContext (level : PermissionLevel) : CommandContext :=
  { scenarioContext level with
    ReplyWith := fun _ => some "403 Cannot send messages to this user" }

/-- The packages with `command.LoadCommandIds` returning the given mapping. -/
def withCommandIds (p : Packages) (commandIds : CommandIds) : Packages :=
  { p with LoadCommandIds := fun _ _ => .ok commandIds }

/-- The context with `ctx.UserPermissionLevel` resolving to the given level. -/
def withPermissionLevel (ctx : CommandContext) (permLevel : PermissionLevel) : CommandContext :=
  { ctx with UserPermissionLevel := .ok permLevel }

/-- A caller of the given level for whom the delivery of the reply fails with
an error other than "recipient unreachable". -/
def serverErrorContext (level : PermissionLevel) : CommandContext :=
  { scenarioContext level with ReplyWith := fun _ => some "500 Internal Server Error" }

/-- A caller whose permission level cannot be resolved. -/
def unresolvedContext : CommandContext :=
  { scenarioContext Everyone with UserPermissionLevel := .error "permission lookup failed" }

/-- The scenario's packages with `command.LoadCommandIds` failing. -/
def failedIdsPackages : Packages :=
  { scenarioPackages with LoadCommandIds := fun _ _ => .error "command ids unavailable" }

/-- A registry with two commands whose categories, `Extras` and `Games`, are
both outside the scenario's `Categories`. -/
def strayPairHelp : HelpCommand :=
  { Registry := [mkCommand "poll" Everyone "Extras", mkCommand "quiz" Everyone "Games"] }

/-- The registry of `strayPairHelp`, iterated in the other order. -/
def strayPairHelpSwapped : HelpCommand :=
  { Registry := [mkCommand "quiz" Everyone "Games", mkCommand "poll" Everyone "Extras"] }

/-! ## The guild-create listener (`bot/listeners/guildcreate.go`)

The listener only acts on its collaborators (REST client, database client,
metrics, error reporting). It is embedded as a function from the event and the
collaborators' answers to the sequence of calls it makes, in order. A call's
answer is a function of the call's arguments. -/

/-- The struct `guild.Role`, with the fields the listener reads. -/
structure Role where
  Id : Nat
  Permissions : Nat
deriving DecidableEq, Repr

/-- The struct `guild.Guild`, with the fields the listener reads. -/
structure Guild where
  Id : Nat
  OwnerId : Nat
deriving DecidableEq, Repr

/-- The event `events.GuildCreate`. `JoinedAt` is an instant, in nanoseconds. -/
structure GuildCreate where
  Guild : Guild
  Roles : List Role
  JoinedAt : Int
deriving DecidableEq, Repr

/-- An entry of the audit log, `auditlog.Entry`, with the fields that
`getInviter` reads. -/
structure AuditLogEntry where
  ActionType : Nat
  TargetId : Nat
  UserId : Nat
deriving DecidableEq, Repr

/-- The answer of `GetGuildAuditLog`. -/
structure AuditLog where
  Entries : List AuditLogEntry
deriving DecidableEq, Repr

/-- The struct `rest.GetGuildAuditLogData`, as `getInviter` fills it. -/
structure GetGuildAuditLogData where
  ActionType : Nat
  Limit : Nat
deriving DecidableEq, Repr

/-- The channel returned by `CreateDM`. -/
structure Channel where
  Id : Nat
deriving DecidableEq, Repr

/-- A call that the listener makes on a collaborator. -/
inductive Action where
  | leaveGuild (guildId : Nat)
  | sentryError (err : Error)
  | incrementKey (key : String)
  | createDM (userId : Nat)
  | createMessageEmbed (channelId : Nat) (msg : Embed)
  | getGuildAuditLog (guildId : Nat) (data : GetGuildAuditLogData)
  | deleteGuildLeaveTime (guildId : Nat)
  | addAdmin (guildId : Nat) (roleId : Nat)
deriving DecidableEq, Repr

/-- Modelled from the spec: the collaborators of the listener, which the spec
treats as external and which are parameters of the model: the clock
(`time.Now()`), `blacklist.IsGuildBlacklisted`, the REST calls of
`worker.Context` (`LeaveGuild`, `CreateDM`, `CreateMessageEmbed`,
`GetGuildAuditLog`), `statsd.KeyJoins`, `customisation.GetColourOrDefault` and
`customisation.Green`, `auditlog.EventBotAdd`, the database calls
`GuildLeaveTime.Delete` and `RolePermissions.AddAdmin`, and
`permission.HasPermissionRaw` with `permission.Administrator`. An `Option Error`
is the error a call returns, if any. -/
structure Collaborators where
  Now : Int
  IsGuildBlacklisted : Nat → Bool
  LeaveGuild : Nat → Option Error
  KeyJoins : String
  CreateDM : Nat → Except Error Channel
  CreateMessageEmbed : Nat → Embed → Option Error
  GetColourOrDefault : Nat → Int → Int
  Green : Int
  GetGuildAuditLog : Nat → GetGuildAuditLogData → Except Error AuditLog
  EventBotAdd : Nat
  DeleteGuildLeaveTime : Nat → Option Error
  AddAdmin : Nat → Nat → Option Error
  HasPermissionRaw : Nat → Nat → Bool
  Administrator : Nat

/-- The constant `time.Minute`, in nanoseconds. -/
def Minute : Int := 60 * 1000000000

/-- The largest `time.Duration`, `1<<63 - 1`. -/
def maxDuration : Int := 9223372036854775807

/-- The smallest `time.Duration`, `-1 << 63`. -/
def minDuration : Int := -9223372036854775808

/-- The method `t.Sub(u)` of `time.Time`: the duration `t - u`, which Go
replaces by the largest or smallest duration when it does not fit. -/
def timeSub (t u : Int) : Int :=
  if t - u > maxDuration then maxDuration
  else if t - u < minDuration then minDuration
  else t - u

/-- Lines 72-81: the embed of the intro message. -/
def introMessage (w : Collaborators) (guild : Guild) : Embed :=
  { Title := "Tickets"
    Description := "Thank you for inviting Tickets to your server! Below is a quick guide on setting the bot up, please don't hesitate to contact us in our [support server](https://discord.gg/nys) if you need any assistance!"
    Color := w.GetColourOrDefault guild.Id w.Green
    Fields :=
      [ { Name := "Setup"
          Value := "You can setup the bot using `/setup`, or you can use the [dashboard](https://dash.nysrp.xyz) which has additional options"
          Inline := false },
        { Name := "Reaction Panels"
          Value := "Reaction panels are a commonly used feature of the bot. You can read about them [here](https://dash.nysrp.xyz/panels), or create one on [the dashboard](https://dashboard.nysrp.xyz/manage/"
            ++ toString guild.Id ++ "/panels)"
          Inline := false },
        { Name := "Adding Staff"
          Value := "To make staff able to answer tickets, you must let the bot know about them first. You can do this through\n`/addsupport [@User / @Role]` and `/addadmin [@User / @Role]`. Administrators can change the settings of the bot and access the dashboard."
          Inline := false },
        { Name := "Tags"
          Value := "Tags are predefined tickets of text which you can access through a simple command. You can learn more about them [here](https://nysrp.xyz/tags)."
          Inline := false },
        { Name := "Claiming"
          Value := "Tickets can be claimed by your staff such that other staff members cannot also reply to the ticket. You can learn more about claiming [here](https://nysrp.xyz/claiming)."
          Inline := false },
        { Name := "Additional Support"
          Value := "If you are still confused, we welcome you to our [support server](https://discord.gg/nys). Cheers."
          Inline := false } ]
    Footer := none }

/-- Translation of `sendIntroMessage`: the calls it makes. When `CreateDM`
fails it returns; the value returned by `CreateMessageEmbed` is discarded. -/
def sendIntroMessage (w : Collaborators) (guild : Guild) (userId : Nat) : List Action :=
  match w.CreateDM userId with
  | .error _ => [Action.createDM userId]
  | .ok channel =>
    [Action.createDM userId, Action.createMessageEmbed channel.Id (introMessage w guild)]

/-- Lines 98-105 of `getInviter`: the loop over the entries, started with
`userId` at its zero value. -/
def findInviter (w : Collaborators) (worker : WorkerContext) : List AuditLogEntry → Nat
  | [] => 0
  | entry :: entries =>
    if entry.ActionType != w.EventBotAdd || entry.TargetId != worker.BotId then
      findInviter w worker entries
    else
      entry.UserId

/-- Translation of `getInviter`: the user id it returns and the calls it
makes. -/
def getInviter (w : Collaborators) (worker : WorkerContext) (guildId : Nat) :
    Nat × List Action :=
  let data : GetGuildAuditLogData := { ActionType := w.EventBotAdd, Limit := 50 }
  match w.GetGuildAuditLog guildId data with
  | .error err => (0, [Action.getGuildAuditLog guildId data, Action.sentryError err])
  | .ok auditLog => (findInviter w worker auditLog.Entries, [Action.getGuildAuditLog guildId data])

/-- Lines 50-61 of `OnGuildCreate`: the loop over the roles of the event. -/
def addAdminRoles (w : Collaborators) (guildId : Nat) : List Role → List Action
  | [] => []
  | role :: roles =>
    if role.Id = guildId then
      addAdminRoles w guildId roles
    else if w.HasPermissionRaw role.Permissions w.Administrator then
      match w.AddAdmin guildId role.Id with
      | some err =>
        Action.addAdmin guildId role.Id :: Action.sentryError err :: addAdminRoles w guildId roles
      | none => Action.addAdmin guildId role.Id :: addAdminRoles w guildId roles
    else
      addAdminRoles w guildId roles

/-- Translation of `OnGuildCreate`: the calls it makes, in order. -/
def OnGuildCreate (w : Collaborators) (worker : WorkerContext) (e : GuildCreate) : List Action :=
  if w.IsGuildBlacklisted e.Guild.Id then
    match w.LeaveGuild e.Guild.Id with
    | some err => [Action.leaveGuild e.Guild.Id, Action.sentryError err]
    | none => [Action.leaveGuild e.Guild.Id]
  else if timeSub w.Now e.JoinedAt < Minute then
    let inviter := getInviter w worker e.Guild.Id
    [Action.incrementKey w.KeyJoins]
      ++ sendIntroMessage w e.Guild e.Guild.OwnerId
      ++ inviter.2
      ++ (if inviter.1 != 0 && inviter.1 != e.Guild.OwnerId then
            sendIntroMessage w e.Guild inviter.1
          else [])
      ++ Action.deleteGuildLeaveTime e.Guild.Id
          :: (match w.DeleteGuildLeaveTime e.Guild.Id with
              | some err => [Action.sentryError err]
              | none => [])
      ++ addAdminRoles w e.Guild.Id e.Roles
  else
    []

/-- The users for whom the intro message was attempted (`sendIntroMessage`
called, which starts with `CreateDM`), in order. -/
def introAttempts (trace : List Action) : List Nat :=
  trace.filterMap (fun a => match a with
    | Action.createDM userId => some userId
    | _ => none)

/-- The channels to which an intro message was sent, in order. -/
def introsSent (trace : List Action) : List Nat :=
  trace.filterMap (fun a => match a with
    | Action.createMessageEmbed channelId _ => some channelId
    | _ => none)

/-- The roles handed to `RolePermissions.AddAdmin`, with the guild, in order. -/
def adminsAdded (trace : List Action) : List (Nat × Nat) :=
  trace.filterMap (fun a => match a with
    | Action.addAdmin guildId roleId => some (guildId, roleId)
    | _ => none)

/-- A run of the listener's collaborators in which every call succeeds: guild
`66` is blacklisted, the clock stands at 100 seconds, the bot is user `1`, the
audit log of the guild says that user `8` added bot `2` and then user `5` added
bot `1` and user `6` did so again, and the Administrator permission is bit 3. -/
def exampleCollaborators : Collaborators :=
  { Now := 100 * 1000000000
    IsGuildBlacklisted := fun guildId => guildId == 66
    LeaveGuild := fun _ => none
    KeyJoins := "joins"
    CreateDM := fun userId => .ok { Id := 1000 + userId }
    CreateMessageEmbed := fun _ _ => none
    GetColourOrDefault := fun _ colour => colour
    Green := 0
    GetGuildAuditLog := fun _ _ =>
      .ok { Entries := [ { ActionType := 28, TargetId := 2, UserId := 8 },
                         { ActionType := 28, TargetId := 1, UserId := 5 },
                         { ActionType := 28, TargetId := 1, UserId := 6 } ] }
    EventBotAdd := 28
    DeleteGuildLeaveTime := fun _ => none
    AddAdmin := fun _ _ => none
    HasPermissionRaw := fun permissions permission => permissions.testBit permission
    Administrator := 3 }

/-- The worker of the example: the main bot, user `1`. -/
def exampleWorker : WorkerContext := { BotId := 1, IsWhitelabel := false }

/-- A guild `9` of owner `7`, joined at the given instant, whose roles are
`@everyone` (id `9`, with Administrator), `20` (with Administrator), `21`
(without) and `22` (with Administrator). -/
def exampleGuildCreate (joinedAt : Int) : GuildCreate :=
  { Guild := { Id := 9, OwnerId := 7 }
    Roles := [ { Id := 9, Permissions := 8 }, { Id := 20, Permissions := 8 },
               { Id := 21, Permissions := 1 }, { Id := 22, Permissions := 12 } ]
    JoinedAt := joinedAt }

/-- A blacklisted guild, `66`, joined one second before the example's clock,
with a role that has Administrator. -/
def blacklistedGuildCreate : GuildCreate :=
  { Guild := { Id := 66, OwnerId := 7 }
    Roles := [ { Id := 20, Permissions := 8 } ]
    JoinedAt := 99 * 1000000000 }

/-! ## Lemmas -/

/-! ### The ordered map -/

namespace OrderedMap

theorem Get_Set (m : OrderedMap) (key key' : Category) (value : Option (List Command)) :
    Get (Set m key value) key' = if key = key' then some value else Get m key' := by
  induction m with
  | nil => simp [Set, Get]
  | cons e rest ih =>
    obtain ⟨k, v⟩ := e
    by_cases hk : k = key
    · subst hk
      by_cases hk' : k = key' <;> simp [Set, Get, hk']
    · by_cases hk' : k = key'
      · subst hk'
        have : ¬ key = k := fun h => hk h.symm
        simp [Set, Get, hk, this]
      · simp [Set, Get, hk, hk', ih]

theorem Keys_Set (m : OrderedMap) (key : Category) (value : Option (List Command)) :
    Keys (Set m key value) = if key ∈ Keys m then Keys m else Keys m ++ [key] := by
  induction m with
  | nil => simp [Set, Keys]
  | cons e rest ih =>
    obtain ⟨k, v⟩ := e
    by_cases hk : k = key
    · subst hk
      simp [Set, Keys]
    · have hk' : ¬ key = k := fun h => hk h.symm
      simp only [Keys] at ih
      simp only [Set, Keys, hk, if_false, List.map_cons, List.mem_cons, hk', false_or, ih]
      split <;> simp

theorem Get_eq_none_iff (m : OrderedMap) (key : Category) :
    Get m key = none ↔ key ∉ Keys m := by
  induction m with
  | nil => simp [Get, Keys]
  | cons e rest ih =>
    obtain ⟨k, v⟩ := e
    by_cases hk : k = key
    · subst hk
      simp [Get, Keys]
    · have hk' : ¬ key = k := fun h => hk h.symm
      simp only [Keys] at ih
      simp [Get, Keys, hk, hk', ih]

theorem Keys_Set_nodup (m : OrderedMap) (key : Category) (value : Option (List Command))
    (h : (Keys m).Nodup) : (Keys (Set m key value)).Nodup := by
  rw [Keys_Set]
  split
  · exact h
  · rename_i hk
    exact List.Nodup.append h (List.nodup_singleton _) (by simpa using hk)

end OrderedMap

theorem groupOf_Set (m : OrderedMap) (key key' : Category) (value : Option (List Command)) :
    groupOf (OrderedMap.Set m key value) key'
      = if key = key' then value.getD [] else groupOf m key' := by
  unfold groupOf
  rw [OrderedMap.Get_Set]
  by_cases h : key = key'
  · cases value <;> simp [h]
  · simp [h]

theorem groupOf_of_not_mem (m : OrderedMap) (key : Category) (h : key ∉ OrderedMap.Keys m) :
    groupOf m key = [] := by
  unfold groupOf
  rw [(OrderedMap.Get_eq_none_iff m key).2 h]

/-! ### The seeded map -/

theorem seed_keys_sublist (cs : List Category) (m : OrderedMap) :
    (OrderedMap.Keys (cs.foldl (fun m category => OrderedMap.Set m category none) m)).Sublist
      (OrderedMap.Keys m ++ cs) := by
  induction cs generalizing m with
  | nil => simp
  | cons c cs ih =>
    simp only [List.foldl_cons]
    refine (ih _).trans ?_
    rw [OrderedMap.Keys_Set]
    split
    · exact List.Sublist.append (List.Sublist.refl _) (List.sublist_cons_self c cs)
    · simp

theorem seed_keys_nodup (cs : List Category) (m : OrderedMap) (h : (OrderedMap.Keys m).Nodup) :
    (OrderedMap.Keys (cs.foldl (fun m category => OrderedMap.Set m category none) m)).Nodup := by
  induction cs generalizing m with
  | nil => simpa using h
  | cons c cs ih =>
    simp only [List.foldl_cons]
    exact ih _ (OrderedMap.Keys_Set_nodup m c none h)

theorem seed_mem_keys (cs : List Category) (m : OrderedMap) (key : Category) :
    key ∈ OrderedMap.Keys (cs.foldl (fun m category => OrderedMap.Set m category none) m)
      ↔ key ∈ OrderedMap.Keys m ∨ key ∈ cs := by
  induction cs generalizing m with
  | nil => simp
  | cons c cs ih =>
    simp only [List.foldl_cons, ih, OrderedMap.Keys_Set, List.mem_cons]
    split
    · rename_i hc
      constructor
      · rintro (h | h)
        · exact Or.inl h
        · exact Or.inr (Or.inr h)
      · rintro (h | h | h)
        · exact Or.inl h
        · exact Or.inl (h ▸ hc)
        · exact Or.inr h
    · simp only [List.mem_append, List.mem_singleton]
      tauto

theorem seed_groupOf (cs : List Category) (m : OrderedMap) (key : Category)
    (h : groupOf m key = []) :
    groupOf (cs.foldl (fun m category => OrderedMap.Set m category none) m) key = [] := by
  induction cs generalizing m with
  | nil => simpa using h
  | cons c cs ih =>
    simp only [List.foldl_cons]
    apply ih
    rw [groupOf_Set]
    split
    · rfl
    · exact h

theorem initCategories_keys_sublist (cs : List Category) :
    (OrderedMap.Keys (initCategories cs)).Sublist cs := by
  simpa [initCategories, OrderedMap.NewOrderedMap, OrderedMap.Keys] using seed_keys_sublist cs []

theorem initCategories_keys_nodup (cs : List Category) :
    (OrderedMap.Keys (initCategories cs)).Nodup :=
  seed_keys_nodup cs [] (by simp [OrderedMap.Keys])

theorem initCategories_mem_keys (cs : List Category) (key : Category) :
    key ∈ OrderedMap.Keys (initCategories cs) ↔ key ∈ cs := by
  simpa [initCategories, OrderedMap.NewOrderedMap, OrderedMap.Keys] using seed_mem_keys cs [] key

theorem initCategories_groupOf (cs : List Category) (key : Category) :
    groupOf (initCategories cs) key = [] :=
  seed_groupOf cs [] key rfl

/-! ### The loop over the registry -/

theorem groupStep_eq (p : Packages) (ctx : CommandContext) (permLevel : PermissionLevel)
    (m : OrderedMap) (cmd : Command) :
    groupStep p ctx permLevel m cmd
      = if eligible p ctx permLevel cmd then
          OrderedMap.Set m cmd.Properties.Category
            (some (groupOf m cmd.Properties.Category ++ [cmd]))
        else m := by
  unfold groupStep eligible groupOf
  by_cases h1 : ((cmd.Properties.AdminOnly && !p.IsBotAdmin ctx.UserId)
      || (cmd.Properties.HelperOnly && !p.IsBotHelper ctx.UserId)) = true
  · simp [h1]
  · by_cases h2 : cmd.Properties.Type_ = ApplicationCommandTypeChatInput
    · by_cases h3 : (cmd.Properties.MainBotOnly && ctx.Worker.IsWhitelabel) = true
      · simp [h1, h2, h3]
      · by_cases h4 : permLevel ≥ cmd.Properties.PermissionLevel
        · simp [h1, h2, h3, h4]
        · simp [h1, h2, h3, h4]
    · simp [h1, h2]

theorem groupCommands_nil (p : Packages) (ctx : CommandContext) (permLevel : PermissionLevel)
    (m : OrderedMap) : groupCommands p ctx permLevel [] m = m := rfl

theorem groupCommands_cons (p : Packages) (ctx : CommandContext) (permLevel : PermissionLevel)
    (cmd : Command) (registry : Registry) (m : OrderedMap) :
    groupCommands p ctx permLevel (cmd :: registry) m
      = groupCommands p ctx permLevel registry (groupStep p ctx permLevel m cmd) := rfl

theorem groupCommands_groupOf (p : Packages) (ctx : CommandContext) (permLevel : PermissionLevel)
    (registry : Registry) (m : OrderedMap) (key : Category) :
    groupOf (groupCommands p ctx permLevel registry m) key
      = groupOf m key ++ registry.filter
          (fun cmd => eligible p ctx permLevel cmd && decide (cmd.Properties.Category = key)) := by
  induction registry generalizing m with
  | nil => simp [groupCommands_nil]
  | cons cmd registry ih =>
    rw [groupCommands_cons, ih, groupStep_eq]
    by_cases he : eligible p ctx permLevel cmd = true
    · by_cases hk : cmd.Properties.Category = key
      · simp [he, hk, groupOf_Set, List.filter_cons]
      · simp [he, hk, groupOf_Set, List.filter_cons]
    · simp [he, List.filter_cons]

theorem groupCommands_keys_nodup (p : Packages) (ctx : CommandContext)
    (permLevel : PermissionLevel) (registry : Registry) (m : OrderedMap)
    (h : (OrderedMap.Keys m).Nodup) :
    (OrderedMap.Keys (groupCommands p ctx permLevel registry m)).Nodup := by
  induction registry generalizing m with
  | nil => simpa [groupCommands_nil] using h
  | cons cmd registry ih =>
    rw [groupCommands_cons]
    apply ih
    rw [groupStep_eq]
    split
    · exact OrderedMap.Keys_Set_nodup _ _ _ h
    · exact h

theorem groupCommands_mem_keys (p : Packages) (ctx : CommandContext)
    (permLevel : PermissionLevel) (registry : Registry) (m : OrderedMap) (key : Category) :
    key ∈ OrderedMap.Keys (groupCommands p ctx permLevel registry m)
      ↔ key ∈ OrderedMap.Keys m
        ∨ ∃ cmd ∈ registry, eligible p ctx permLevel cmd = true ∧ cmd.Properties.Category = key := by
  induction registry generalizing m with
  | nil => simp [groupCommands_nil]
  | cons cmd registry ih =>
    rw [groupCommands_cons, ih, groupStep_eq]
    by_cases he : eligible p ctx permLevel cmd = true
    · simp only [he, if_true, OrderedMap.Keys_Set, List.mem_cons, exists_eq_or_imp, true_and]
      split
      · rename_i hc
        constructor
        · rintro (h | h)
          · exact Or.inl h
          · exact Or.inr (Or.inr h)
        · rintro (h | h | h)
          · exact Or.inl h
          · exact Or.inl (h ▸ hc)
          · exact Or.inr h
      · simp only [List.mem_append, List.mem_singleton]
        constructor
        · rintro ((h | h) | h)
          · exact Or.inl h
          · exact Or.inr (Or.inl h.symm)
          · exact Or.inr (Or.inr h)
        · rintro (h | h | h)
          · exact Or.inl (Or.inl h)
          · exact Or.inl (Or.inr h.symm)
          · exact Or.inr h
    · simp [he]

theorem groupCommands_keys_eq (p : Packages) (ctx : CommandContext)
    (permLevel : PermissionLevel) (registry : Registry) (m : OrderedMap)
    (h : ∀ cmd ∈ registry, eligible p ctx permLevel cmd = true →
      cmd.Properties.Category ∈ OrderedMap.Keys m) :
    OrderedMap.Keys (groupCommands p ctx permLevel registry m) = OrderedMap.Keys m := by
  induction registry generalizing m with
  | nil => simp [groupCommands_nil]
  | cons cmd registry ih =>
    have hstep : OrderedMap.Keys (groupStep p ctx permLevel m cmd) = OrderedMap.Keys m := by
      rw [groupStep_eq]
      split
      · rename_i he
        rw [OrderedMap.Keys_Set, if_pos (h cmd (List.mem_cons_self _ _) he)]
      · rfl
    rw [groupCommands_cons, ih, hstep]
    intro c hc he
    rw [hstep]
    exact h c (List.mem_cons_of_mem _ hc) he

/-! ### Sorting -/

theorem sortSlice_perm (l : List Command) : (sortSlice l).Perm l :=
  @List.perm_insertionSort Command (fun a b => a.Properties.Name ≤ b.Properties.Name)
    (fun a b => nameLeDecidable a.Properties.Name b.Properties.Name) l

theorem sortSlice_eq_nil (l : List Command) : sortSlice l = [] ↔ l = [] := by
  constructor
  · intro h
    exact List.Perm.eq_nil (h ▸ (sortSlice_perm l).symm)
  · intro h
    subst h
    rfl

theorem sortSlice_mem (l : List Command) (cmd : Command) : cmd ∈ sortSlice l ↔ cmd ∈ l :=
  (sortSlice_perm l).mem_iff

theorem sortSlice_sorted_le (l : List Command) :
    ((sortSlice l).map (fun cmd => cmd.Properties.Name)).Sorted (· ≤ ·) := by
  haveI : IsTotal Command (fun a b => a.Properties.Name ≤ b.Properties.Name) :=
    ⟨fun a b => le_total a.Properties.Name b.Properties.Name⟩
  haveI : IsTrans Command (fun a b => a.Properties.Name ≤ b.Properties.Name) :=
    ⟨fun _ _ _ hab hbc => le_trans hab hbc⟩
  have h : List.Sorted (fun a b : Command => a.Properties.Name ≤ b.Properties.Name)
      (sortSlice l) :=
    @List.sorted_insertionSort Command (fun a b => a.Properties.Name ≤ b.Properties.Name)
      (fun a b => nameLeDecidable a.Properties.Name b.Properties.Name) _ _ l
  exact List.pairwise_map.2 h

theorem sortSlice_sorted_lt (l : List Command)
    (h : (l.map (fun cmd => cmd.Properties.Name)).Nodup) :
    ((sortSlice l).map (fun cmd => cmd.Properties.Name)).Sorted (· < ·) := by
  apply (sortSlice_sorted_le l).lt_of_le
  exact (((sortSlice_perm l).map _).nodup_iff).2 h

/-! ### The loop over the keys -/

theorem renderCategory_eq (ctx : CommandContext) (commandIds : CommandIds) (m : OrderedMap)
    (category : Category) :
    renderCategory ctx commandIds m category
      = if groupOf m category = [] then none
        else some { title := category
                    calls := (sortSlice (groupOf m category)).map (fun cmd =>
                      { cmd := cmd, guildId := ctx.GuildId
                        commandId := commandIds cmd.Properties.Name }) } := by
  have hg : (match OrderedMap.Get m category with
      | some (some retrieved) => retrieved
      | some none => []
      | none => []) = groupOf m category := rfl
  unfold renderCategory
  simp only [hg]
  by_cases h : groupOf m category = []
  · simp [h, sortSlice]
  · have : 0 < (sortSlice (groupOf m category)).length :=
      List.length_pos.2 (fun hs => h ((sortSlice_eq_nil _).1 hs))
    simp [h, this]

theorem mem_renderSections (ctx : CommandContext) (commandIds : CommandIds) (m : OrderedMap)
    (s : HelpSection) :
    s ∈ renderSections ctx commandIds m
      ↔ s.title ∈ OrderedMap.Keys m ∧ groupOf m s.title ≠ []
        ∧ s.calls = (sortSlice (groupOf m s.title)).map (fun cmd =>
            { cmd := cmd, guildId := ctx.GuildId, commandId := commandIds cmd.Properties.Name }) := by
  unfold renderSections
  simp only [List.mem_filterMap, renderCategory_eq]
  constructor
  · rintro ⟨k, hk, h⟩
    by_cases hg : groupOf m k = []
    · simp [hg] at h
    · simp only [hg, if_false, Option.some.injEq] at h
      subst h
      exact ⟨hk, hg, rfl⟩
  · rintro ⟨hk, hg, hc⟩
    refine ⟨s.title, hk, ?_⟩
    simp only [hg, if_false, Option.some.injEq]
    cases s
    simp_all

theorem renderSections_titles (ctx : CommandContext) (commandIds : CommandIds) (m : OrderedMap) :
    (renderSections ctx commandIds m).map (fun s => s.title)
      = (OrderedMap.Keys m).filter (fun k => decide (groupOf m k ≠ [])) := by
  unfold renderSections
  induction OrderedMap.Keys m with
  | nil => rfl
  | cons k ks ih =>
    by_cases hg : groupOf m k = []
    · simp [List.filterMap_cons, List.filter_cons, renderCategory_eq, hg, ih]
    · simp [List.filterMap_cons, List.filter_cons, renderCategory_eq, hg, ih]

theorem renderSections_commands (ctx : CommandContext) (commandIds : CommandIds)
    (m : OrderedMap) :
    (renderSections ctx commandIds m).map (fun s => (s.title, s.calls.map (fun c => c.cmd)))
      = ((OrderedMap.Keys m).filter (fun k => decide (groupOf m k ≠ []))).map
          (fun k => (k, sortSlice (groupOf m k))) := by
  unfold renderSections
  induction OrderedMap.Keys m with
  | nil => rfl
  | cons k ks ih =>
    by_cases hg : groupOf m k = []
    · simp [List.filterMap_cons, List.filter_cons, renderCategory_eq, hg, ih]
    · simp [List.filterMap_cons, List.filter_cons, renderCategory_eq, hg, ih, Function.comp_def]

theorem eq_of_perm_of_map_eq {α β : Type} (f : α → β) (l₁ l₂ : List α) (hp : l₁.Perm l₂)
    (hm : l₁.map f = l₂.map f) (hnd : (l₁.map f).Nodup) : l₁ = l₂ := by
  induction l₁ generalizing l₂ with
  | nil => exact (List.Perm.nil_eq hp)
  | cons a t₁ ih =>
    cases l₂ with
    | nil => simp at hm
    | cons b t₂ =>
      simp only [List.map_cons, List.cons.injEq] at hm
      have hb : b ∈ a :: t₁ := hp.mem_iff.2 (List.mem_cons_self _ _)
      have hab : a = b :=
        List.inj_on_of_nodup_map hnd (List.mem_cons_self _ _) hb hm.1
      subst hab
      rw [List.map_cons, List.nodup_cons] at hnd
      rw [ih t₂ (List.Perm.cons_inv hp) hm.2 hnd.2]

/-- On commands with pairwise distinct names the result of the sort does not
depend on the sorting algorithm: every rearrangement in which no command's name
is less than an earlier one's is the list `sortSlice` returns. -/
theorem sortSlice_unique (l sorted : List Command) (hperm : sorted.Perm l)
    (hsorted : sorted.Pairwise (fun a b => ¬ b.Properties.Name < a.Properties.Name))
    (hnd : (l.map (fun cmd => cmd.Properties.Name)).Nodup) : sorted = sortSlice l := by
  have hp : sorted.Perm (sortSlice l) := hperm.trans (sortSlice_perm l).symm
  have hs : (sorted.map (fun cmd => cmd.Properties.Name)).Sorted (· ≤ ·) := by
    apply List.pairwise_map.2
    exact hsorted.imp (fun h => not_lt.1 h)
  have hnames : sorted.map (fun cmd => cmd.Properties.Name)
      = (sortSlice l).map (fun cmd => cmd.Properties.Name) :=
    List.eq_of_perm_of_sorted (hp.map _) hs (sortSlice_sorted_le l)
  exact eq_of_perm_of_map_eq _ _ _ hp hnames (((hperm.map _).nodup_iff).2 hnd)

/-! ### `Execute` as a whole -/

theorem Execute_ok (p : Packages) (c : HelpCommand) (ctx : CommandContext)
    (permLevel : PermissionLevel) (commandIds : CommandIds)
    (hperm : ctx.UserPermissionLevel = .ok permLevel)
    (hids : p.LoadCommandIds ctx.Worker ctx.Worker.BotId = .ok commandIds) :
    HelpCommand.Execute p c ctx
      = { handled := []
          loadedCommandIds := true
          sections := renderSections ctx commandIds (helpMap p c ctx permLevel)
          reply := some
            { Title := ctx.GetMessage p.TitleHelp
              Color := ctx.GetColour p.Green
              Fields := (renderSections ctx commandIds (helpMap p c ctx permLevel)).map
                (sectionField p)
              Footer := if ctx.PremiumTier = p.PremiumNone then
                some ("Powered by nysrp.xyz",
                  "https://nystickets.s3.eu-north-1.amazonaws.com/nystickets/nys.png")
              else none } } := by
  simp only [HelpCommand.Execute, hperm, hids, helpMap]

theorem Execute_sections_cases (p : Packages) (c : HelpCommand) (ctx : CommandContext) :
    ((HelpCommand.Execute p c ctx).sections = [] ∧ (HelpCommand.Execute p c ctx).reply = none)
      ∨ ∃ permLevel commandIds, ctx.UserPermissionLevel = .ok permLevel
          ∧ p.LoadCommandIds ctx.Worker ctx.Worker.BotId = .ok commandIds
          ∧ (HelpCommand.Execute p c ctx).sections
              = renderSections ctx commandIds (helpMap p c ctx permLevel) := by
  cases hperm : ctx.UserPermissionLevel with
  | error err => left; simp [HelpCommand.Execute, hperm]
  | ok permLevel =>
    cases hids : p.LoadCommandIds ctx.Worker ctx.Worker.BotId with
    | error err => left; simp [HelpCommand.Execute, hperm, hids]
    | ok commandIds =>
      right
      exact ⟨permLevel, commandIds, rfl, rfl, by rw [Execute_ok p c ctx permLevel commandIds hperm hids]⟩

theorem Execute_fields (p : Packages) (c : HelpCommand) (ctx : CommandContext) (e : Embed)
    (h : (HelpCommand.Execute p c ctx).reply = some e) :
    e.Fields = (HelpCommand.Execute p c ctx).sections.map (sectionField p) := by
  cases hperm : ctx.UserPermissionLevel with
  | error err => simp [HelpCommand.Execute, hperm] at h
  | ok permLevel =>
    cases hids : p.LoadCommandIds ctx.Worker ctx.Worker.BotId with
    | error err => simp [HelpCommand.Execute, hperm, hids] at h
    | ok commandIds =>
      rw [Execute_ok p c ctx permLevel commandIds hperm hids] at h ⊢
      simp only [Option.some.injEq] at h
      subst h
      rfl

theorem embedTitles_eq (p : Packages) (c : HelpCommand) (ctx : CommandContext) :
    embedTitles (HelpCommand.Execute p c ctx)
      = (HelpCommand.Execute p c ctx).sections.map (fun s => s.title) := by
  unfold embedTitles
  cases h : (HelpCommand.Execute p c ctx).reply with
  | none =>
    rcases Execute_sections_cases p c ctx with ⟨hs, _⟩ | ⟨permLevel, commandIds, hperm, hids, _⟩
    · simp [hs]
    · rw [Execute_ok p c ctx permLevel commandIds hperm hids] at h
      simp at h
  | some e =>
    simp only [Execute_fields p c ctx e h, List.map_map]
    rfl

/-! ### The map after the loop -/

theorem helpMap_groupOf (p : Packages) (c : HelpCommand) (ctx : CommandContext)
    (permLevel : PermissionLevel) (key : Category) :
    groupOf (helpMap p c ctx permLevel) key
      = c.Registry.filter
          (fun cmd => eligible p ctx permLevel cmd && decide (cmd.Properties.Category = key)) := by
  unfold helpMap
  rw [groupCommands_groupOf, initCategories_groupOf, List.nil_append]

theorem helpMap_keys_nodup (p : Packages) (c : HelpCommand) (ctx : CommandContext)
    (permLevel : PermissionLevel) : (OrderedMap.Keys (helpMap p c ctx permLevel)).Nodup :=
  groupCommands_keys_nodup p ctx permLevel c.Registry _ (initCategories_keys_nodup _)

theorem helpMap_mem_keys (p : Packages) (c : HelpCommand) (ctx : CommandContext)
    (permLevel : PermissionLevel) (key : Category) :
    key ∈ OrderedMap.Keys (helpMap p c ctx permLevel)
      ↔ key ∈ p.Categories
        ∨ ∃ cmd ∈ c.Registry, eligible p ctx permLevel cmd = true
            ∧ cmd.Properties.Category = key := by
  unfold helpMap
  rw [groupCommands_mem_keys, initCategories_mem_keys]

theorem helpMap_groupOf_ne_nil (p : Packages) (c : HelpCommand) (ctx : CommandContext)
    (permLevel : PermissionLevel) (key : Category) :
    groupOf (helpMap p c ctx permLevel) key ≠ []
      ↔ ∃ cmd ∈ c.Registry, eligible p ctx permLevel cmd = true
          ∧ cmd.Properties.Category = key := by
  rw [helpMap_groupOf, Ne, List.filter_eq_nil_iff]
  simp

theorem lists_iff (p : Packages) (c : HelpCommand) (ctx : CommandContext)
    (permLevel : PermissionLevel) (commandIds : CommandIds)
    (hperm : ctx.UserPermissionLevel = .ok permLevel)
    (hids : p.LoadCommandIds ctx.Worker ctx.Worker.BotId = .ok commandIds) (cmd : Command) :
    (HelpCommand.Execute p c ctx).lists cmd
      ↔ cmd ∈ c.Registry ∧ eligible p ctx permLevel cmd = true := by
  unfold Outcome.lists
  rw [Execute_ok p c ctx permLevel commandIds hperm hids]
  simp only
  constructor
  · rintro ⟨s, hs, hc⟩
    rw [mem_renderSections] at hs
    obtain ⟨_, _, hcalls⟩ := hs
    rw [hcalls, List.map_map] at hc
    have hc' : cmd ∈ sortSlice (groupOf (helpMap p c ctx permLevel) s.title) := by
      simpa [Function.comp_def] using hc
    rw [sortSlice_mem, helpMap_groupOf, List.mem_filter] at hc'
    simp only [Bool.and_eq_true] at hc'
    exact ⟨hc'.1, hc'.2.1⟩
  · rintro ⟨hreg, hel⟩
    have hmem : cmd ∈ groupOf (helpMap p c ctx permLevel) cmd.Properties.Category := by
      rw [helpMap_groupOf, List.mem_filter]
      simp [hreg, hel]
    refine ⟨{ title := cmd.Properties.Category
              calls := (sortSlice (groupOf (helpMap p c ctx permLevel) cmd.Properties.Category)).map
                (fun cmd => { cmd := cmd, guildId := ctx.GuildId
                              commandId := commandIds cmd.Properties.Name }) }, ?_, ?_⟩
    · rw [mem_renderSections]
      refine ⟨?_, ?_, rfl⟩
      · exact (helpMap_mem_keys p c ctx permLevel _).2 (Or.inr ⟨cmd, hreg, hel, rfl⟩)
      · exact List.ne_nil_of_mem hmem
    · simp only [List.map_map, Function.comp_def, List.map_id']
      exact (sortSlice_mem _ _).2 hmem

theorem lists_imp (p : Packages) (c : HelpCommand) (ctx : CommandContext) (cmd : Command)
    (h : (HelpCommand.Execute p c ctx).lists cmd) :
    ∃ permLevel commandIds, ctx.UserPermissionLevel = .ok permLevel
      ∧ p.LoadCommandIds ctx.Worker ctx.Worker.BotId = .ok commandIds
      ∧ cmd ∈ c.Registry ∧ eligible p ctx permLevel cmd = true := by
  rcases Execute_sections_cases p c ctx with ⟨hs, _⟩ | ⟨permLevel, commandIds, hperm, hids, _⟩
  · obtain ⟨s, hs', _⟩ := h
    rw [hs] at hs'
    simp at hs'
  · exact ⟨permLevel, commandIds, hperm, hids,
      (lists_iff p c ctx permLevel commandIds hperm hids cmd).1 h⟩

theorem embedTitles_ok (p : Packages) (c : HelpCommand) (ctx : CommandContext)
    (permLevel : PermissionLevel) (commandIds : CommandIds)
    (hperm : ctx.UserPermissionLevel = .ok permLevel)
    (hids : p.LoadCommandIds ctx.Worker ctx.Worker.BotId = .ok commandIds) :
    embedTitles (HelpCommand.Execute p c ctx)
      = (OrderedMap.Keys (helpMap p c ctx permLevel)).filter
          (fun k => decide (groupOf (helpMap p c ctx permLevel) k ≠ [])) := by
  rw [embedTitles_eq, Execute_ok p c ctx permLevel commandIds hperm hids]
  exact renderSections_titles _ _ _

theorem embedTitles_error_perm (p : Packages) (c : HelpCommand) (ctx : CommandContext)
    (err : Error) (hperm : ctx.UserPermissionLevel = .error err) :
    embedTitles (HelpCommand.Execute p c ctx) = [] := by
  simp [embedTitles, HelpCommand.Execute, hperm]

theorem embedTitles_error_ids (p : Packages) (c : HelpCommand) (ctx : CommandContext)
    (permLevel : PermissionLevel) (err : Error)
    (hperm : ctx.UserPermissionLevel = .ok permLevel)
    (hids : p.LoadCommandIds ctx.Worker ctx.Worker.BotId = .error err) :
    embedTitles (HelpCommand.Execute p c ctx) = [] := by
  simp [embedTitles, HelpCommand.Execute, hperm, hids]

theorem mem_embedTitles_iff (p : Packages) (c : HelpCommand) (ctx : CommandContext)
    (permLevel : PermissionLevel) (commandIds : CommandIds)
    (hperm : ctx.UserPermissionLevel = .ok permLevel)
    (hids : p.LoadCommandIds ctx.Worker ctx.Worker.BotId = .ok commandIds) (t : Category) :
    t ∈ embedTitles (HelpCommand.Execute p c ctx)
      ↔ ∃ cmd ∈ c.Registry, eligible p ctx permLevel cmd = true
          ∧ cmd.Properties.Category = t := by
  rw [embedTitles_ok p c ctx permLevel commandIds hperm hids, List.mem_filter,
    decide_eq_true_eq, helpMap_groupOf_ne_nil, helpMap_mem_keys]
  constructor
  · exact fun h => h.2
  · exact fun h => ⟨Or.inr h, h⟩

/-! ### Every eligible command is rendered once -/

theorem filter_append_filter_perm {α : Type} (f g : α → Bool) (l : List α)
    (h : ∀ x ∈ l, f x = true → g x = true → False) :
    (l.filter f ++ l.filter g).Perm (l.filter (fun x => f x || g x)) := by
  induction l with
  | nil => simp
  | cons x l ih =>
    have ih' := ih (fun y hy => h y (List.mem_cons_of_mem _ hy))
    cases hf : f x <;> cases hg : g x
    · simpa [List.filter_cons, hf, hg] using ih'
    · simp only [List.filter_cons, hf, hg, Bool.or_true, if_true, Bool.false_eq_true, if_false]
      exact List.perm_middle.trans (List.Perm.cons x ih')
    · simp only [List.filter_cons, hf, hg, Bool.or_false, if_true, Bool.false_eq_true, if_false,
        List.cons_append]
      exact List.Perm.cons x ih'
    · exact absurd (h x (List.mem_cons_self _ _) hf hg) id

theorem flatMap_filter_category_perm (ks : List Category) (hnd : ks.Nodup) (l : List Command) :
    (ks.flatMap (fun k => l.filter (fun cmd => decide (cmd.Properties.Category = k)))).Perm
      (l.filter (fun cmd => decide (cmd.Properties.Category ∈ ks))) := by
  induction ks with
  | nil => simp
  | cons k ks ih =>
    rw [List.nodup_cons] at hnd
    rw [List.flatMap_cons]
    refine ((ih hnd.2).append_left _).trans ?_
    refine (filter_append_filter_perm _ _ l ?_).trans ?_
    · intro x _ h1 h2
      simp only [decide_eq_true_eq] at h1 h2
      exact hnd.1 (h1 ▸ h2)
    · apply List.Perm.of_eq
      apply List.filter_congr
      intro x _
      simp [List.mem_cons]

theorem renderSections_flatMap (ctx : CommandContext) (commandIds : CommandIds)
    (m : OrderedMap) :
    (renderSections ctx commandIds m).flatMap (fun s => s.calls.map (fun call => call.cmd))
      = (OrderedMap.Keys m).flatMap (fun k => sortSlice (groupOf m k)) := by
  unfold renderSections
  induction OrderedMap.Keys m with
  | nil => rfl
  | cons k ks ih =>
    by_cases hg : groupOf m k = []
    · have hs : sortSlice ([] : List Command) = [] := rfl
      simp [List.filterMap_cons, List.flatMap_cons, renderCategory_eq, hg, hs, ih]
    · simp [List.filterMap_cons, List.flatMap_cons, renderCategory_eq, hg, ih, Function.comp_def]

theorem rendered_perm_eligible (p : Packages) (c : HelpCommand) (ctx : CommandContext)
    (permLevel : PermissionLevel) (commandIds : CommandIds) :
    ((renderSections ctx commandIds (helpMap p c ctx permLevel)).flatMap
        (fun s => s.calls.map (fun call => call.cmd))).Perm
      (c.Registry.filter (eligible p ctx permLevel)) := by
  rw [renderSections_flatMap]
  refine (List.Perm.flatMap_left _ (fun k _ => sortSlice_perm _)).trans ?_
  have hfun : groupOf (helpMap p c ctx permLevel)
      = (fun k => (c.Registry.filter (eligible p ctx permLevel)).filter
          (fun cmd => decide (cmd.Properties.Category = k))) := by
    funext k
    rw [helpMap_groupOf, List.filter_filter]
    apply List.filter_congr
    intro x _
    exact Bool.and_comm _ _
  rw [hfun]
  refine (flatMap_filter_category_perm _ (helpMap_keys_nodup p c ctx permLevel) _).trans ?_
  apply List.Perm.of_eq
  rw [List.filter_eq_self]
  intro cmd hcmd
  rw [List.mem_filter] at hcmd
  simp only [decide_eq_true_eq]
  exact (helpMap_mem_keys p c ctx permLevel _).2 (Or.inr ⟨cmd, hcmd.1, hcmd.2, rfl⟩)

theorem eligible_iff (p : Packages) (ctx : CommandContext) (permLevel : PermissionLevel)
    (cmd : Command) :
    eligible p ctx permLevel cmd = true
      ↔ ¬ (cmd.Properties.AdminOnly = true ∧ p.IsBotAdmin ctx.UserId = false)
        ∧ ¬ (cmd.Properties.HelperOnly = true ∧ p.IsBotHelper ctx.UserId = false)
        ∧ cmd.Properties.Type_ = ApplicationCommandTypeChatInput
        ∧ ¬ (cmd.Properties.MainBotOnly = true ∧ ctx.Worker.IsWhitelabel = true)
        ∧ permLevel ≥ cmd.Properties.PermissionLevel := by
  unfold eligible
  cases cmd.Properties.AdminOnly <;> cases p.IsBotAdmin ctx.UserId <;>
    cases cmd.Properties.HelperOnly <;> cases p.IsBotHelper ctx.UserId <;>
    cases cmd.Properties.MainBotOnly <;> cases ctx.Worker.IsWhitelabel <;> simp

/-! ### Iterating the registry in another order -/

theorem sortSlice_congr_perm (l l' : List Command) (hperm : l'.Perm l)
    (hnd : (l.map (fun cmd => cmd.Properties.Name)).Nodup) : sortSlice l' = sortSlice l := by
  apply sortSlice_unique l (sortSlice l') ((sortSlice_perm l').trans hperm) _ hnd
  have hs := sortSlice_sorted_le l'
  rw [List.Sorted, List.pairwise_map] at hs
  exact hs.imp (fun h => not_lt.2 h)

theorem renderCategory_congr_perm (p : Packages) (c c' : HelpCommand) (ctx : CommandContext)
    (permLevel : PermissionLevel) (commandIds : CommandIds)
    (hperm : c'.Registry.Perm c.Registry)
    (hnd : (c.Registry.map (fun cmd => cmd.Properties.Name)).Nodup) (category : Category) :
    renderCategory ctx commandIds (helpMap p c' ctx permLevel) category
      = renderCategory ctx commandIds (helpMap p c ctx permLevel) category := by
  have hgroup : (groupOf (helpMap p c' ctx permLevel) category).Perm
      (groupOf (helpMap p c ctx permLevel) category) := by
    rw [helpMap_groupOf, helpMap_groupOf]
    exact hperm.filter _
  have hnames : ((groupOf (helpMap p c ctx permLevel) category).map
      (fun cmd => cmd.Properties.Name)).Nodup := by
    rw [helpMap_groupOf]
    exact hnd.sublist ((List.filter_sublist _).map _)
  have hnil : groupOf (helpMap p c' ctx permLevel) category = []
      ↔ groupOf (helpMap p c ctx permLevel) category = [] :=
    ⟨fun h => (h ▸ hgroup.symm).eq_nil, fun h => (h ▸ hgroup).eq_nil⟩
  rw [renderCategory_eq, renderCategory_eq, sortSlice_congr_perm _ _ hgroup hnames]
  by_cases h : groupOf (helpMap p c ctx permLevel) category = []
  · rw [if_pos h, if_pos (hnil.2 h)]
  · rw [if_neg h, if_neg (fun h' => h (hnil.1 h'))]

theorem helpMap_keys_perm (p : Packages) (c c' : HelpCommand) (ctx : CommandContext)
    (permLevel : PermissionLevel) (hperm : c'.Registry.Perm c.Registry) :
    (OrderedMap.Keys (helpMap p c' ctx permLevel)).Perm
      (OrderedMap.Keys (helpMap p c ctx permLevel)) := by
  rw [List.perm_ext_iff_of_nodup (helpMap_keys_nodup p c' ctx permLevel)
    (helpMap_keys_nodup p c ctx permLevel)]
  intro k
  rw [helpMap_mem_keys, helpMap_mem_keys]
  constructor
  · rintro (h | ⟨cmd, hcmd, hrest⟩)
    · exact Or.inl h
    · exact Or.inr ⟨cmd, hperm.mem_iff.1 hcmd, hrest⟩
  · rintro (h | ⟨cmd, hcmd, hrest⟩)
    · exact Or.inl h
    · exact Or.inr ⟨cmd, hperm.mem_iff.2 hcmd, hrest⟩

/-! ### The guild-create listener -/

theorem timeSub_lt_Minute (t u : Int) : timeSub t u < Minute ↔ t - u < Minute := by
  unfold timeSub Minute maxDuration minDuration
  split_ifs <;> omega

theorem introAttempts_append (a b : List Action) :
    introAttempts (a ++ b) = introAttempts a ++ introAttempts b :=
  List.filterMap_append _ _ _

theorem introsSent_append (a b : List Action) :
    introsSent (a ++ b) = introsSent a ++ introsSent b :=
  List.filterMap_append _ _ _

theorem adminsAdded_append (a b : List Action) :
    adminsAdded (a ++ b) = adminsAdded a ++ adminsAdded b :=
  List.filterMap_append _ _ _

theorem introAttempts_sendIntroMessage (w : Collaborators) (guild : Guild) (userId : Nat) :
    introAttempts (sendIntroMessage w guild userId) = [userId] := by
  unfold sendIntroMessage
  cases w.CreateDM userId <;> rfl

theorem adminsAdded_sendIntroMessage (w : Collaborators) (guild : Guild) (userId : Nat) :
    adminsAdded (sendIntroMessage w guild userId) = [] := by
  unfold sendIntroMessage
  cases w.CreateDM userId <;> rfl

theorem getInviter_error (w : Collaborators) (worker : WorkerContext) (guildId : Nat)
    (err : Error)
    (h : w.GetGuildAuditLog guildId { ActionType := w.EventBotAdd, Limit := 50 } = .error err) :
    getInviter w worker guildId
      = (0, [Action.getGuildAuditLog guildId { ActionType := w.EventBotAdd, Limit := 50 },
          Action.sentryError err]) := by
  simp only [getInviter, h]

theorem getInviter_ok (w : Collaborators) (worker : WorkerContext) (guildId : Nat)
    (auditLog : AuditLog)
    (h : w.GetGuildAuditLog guildId { ActionType := w.EventBotAdd, Limit := 50 } = .ok auditLog) :
    getInviter w worker guildId
      = (findInviter w worker auditLog.Entries,
          [Action.getGuildAuditLog guildId { ActionType := w.EventBotAdd, Limit := 50 }]) := by
  simp only [getInviter, h]

theorem introAttempts_getInviter (w : Collaborators) (worker : WorkerContext) (guildId : Nat) :
    introAttempts (getInviter w worker guildId).2 = [] := by
  cases h : w.GetGuildAuditLog guildId { ActionType := w.EventBotAdd, Limit := 50 } with
  | error err => rw [getInviter_error w worker guildId err h]; rfl
  | ok auditLog => rw [getInviter_ok w worker guildId auditLog h]; rfl

theorem adminsAdded_getInviter (w : Collaborators) (worker : WorkerContext) (guildId : Nat) :
    adminsAdded (getInviter w worker guildId).2 = [] := by
  cases h : w.GetGuildAuditLog guildId { ActionType := w.EventBotAdd, Limit := 50 } with
  | error err => rw [getInviter_error w worker guildId err h]; rfl
  | ok auditLog => rw [getInviter_ok w worker guildId auditLog h]; rfl

theorem introAttempts_addAdminRoles (w : Collaborators) (guildId : Nat) (roles : List Role) :
    introAttempts (addAdminRoles w guildId roles) = [] := by
  induction roles with
  | nil => rfl
  | cons role roles ih =>
    unfold addAdminRoles
    split_ifs
    · exact ih
    · cases w.AddAdmin guildId role.Id
      · simpa [introAttempts] using ih
      · simpa [introAttempts] using ih
    · exact ih

theorem adminsAdded_addAdminRoles (w : Collaborators) (guildId : Nat) (roles : List Role) :
    adminsAdded (addAdminRoles w guildId roles)
      = (roles.filter (fun role =>
          w.HasPermissionRaw role.Permissions w.Administrator && decide (role.Id ≠ guildId))).map
          (fun role => (guildId, role.Id)) := by
  induction roles with
  | nil => rfl
  | cons role roles ih =>
    unfold addAdminRoles
    by_cases hid : role.Id = guildId
    · simp only [hid, if_true, List.filter_cons, ne_eq, not_true_eq_false, decide_False,
        Bool.and_false, Bool.false_eq_true, if_false]
      rw [← hid]
      simpa [hid] using ih
    · by_cases hadmin : w.HasPermissionRaw role.Permissions w.Administrator = true
      · cases hadd : w.AddAdmin guildId role.Id
        · simp only [hid, if_false, hadmin, if_true, List.filter_cons, ne_eq, not_false_eq_true,
            decide_True, Bool.and_self, List.map_cons]
          simpa [adminsAdded] using ih
        · simp only [hid, if_false, hadmin, if_true, List.filter_cons, ne_eq, not_false_eq_true,
            decide_True, Bool.and_self, List.map_cons]
          simpa [adminsAdded] using ih
      · simp only [hid, if_false, hadmin, List.filter_cons, Bool.false_eq_true, Bool.false_and]
        simpa using ih

theorem OnGuildCreate_blacklisted (w : Collaborators) (worker : WorkerContext) (e : GuildCreate)
    (hb : w.IsGuildBlacklisted e.Guild.Id = true) :
    OnGuildCreate w worker e
      = Action.leaveGuild e.Guild.Id
          :: (match w.LeaveGuild e.Guild.Id with
              | some err => [Action.sentryError err]
              | none => []) := by
  unfold OnGuildCreate
  rw [if_pos hb]
  cases w.LeaveGuild e.Guild.Id <;> rfl

theorem OnGuildCreate_recent (w : Collaborators) (worker : WorkerContext) (e : GuildCreate)
    (hb : w.IsGuildBlacklisted e.Guild.Id = false) (hrecent : w.Now - e.JoinedAt < Minute) :
    OnGuildCreate w worker e
      = [Action.incrementKey w.KeyJoins]
          ++ sendIntroMessage w e.Guild e.Guild.OwnerId
          ++ (getInviter w worker e.Guild.Id).2
          ++ (if (getInviter w worker e.Guild.Id).1 ≠ 0
                ∧ (getInviter w worker e.Guild.Id).1 ≠ e.Guild.OwnerId then
              sendIntroMessage w e.Guild (getInviter w worker e.Guild.Id).1
            else [])
          ++ Action.deleteGuildLeaveTime e.Guild.Id
              :: (match w.DeleteGuildLeaveTime e.Guild.Id with
                  | some err => [Action.sentryError err]
                  | none => [])
          ++ addAdminRoles w e.Guild.Id e.Roles := by
  unfold OnGuildCreate
  rw [if_neg (by simp [hb]), if_pos ((timeSub_lt_Minute _ _).2 hrecent)]
  simp only [bne_iff_ne, ne_eq, Bool.and_eq_true, decide_eq_true_eq]

theorem OnGuildCreate_old (w : Collaborators) (worker : WorkerContext) (e : GuildCreate)
    (hb : w.IsGuildBlacklisted e.Guild.Id = false) (hold : Minute ≤ w.Now - e.JoinedAt) :
    OnGuildCreate w worker e = [] := by
  unfold OnGuildCreate
  rw [if_neg (by simp [hb]), if_neg (fun h => absurd ((timeSub_lt_Minute _ _).1 h) (not_lt.2 hold))]

theorem mem_adminsAdded (trace : List Action) (guildId roleId : Nat) :
    (guildId, roleId) ∈ adminsAdded trace ↔ Action.addAdmin guildId roleId ∈ trace := by
  unfold adminsAdded
  rw [List.mem_filterMap]
  constructor
  · rintro ⟨a, ha, h⟩
    cases a <;> simp at h
    obtain ⟨rfl, rfl⟩ := h
    exact ha
  · intro h
    exact ⟨_, h, rfl⟩

theorem mem_introAttempts (trace : List Action) (userId : Nat) :
    userId ∈ introAttempts trace ↔ Action.createDM userId ∈ trace := by
  unfold introAttempts
  rw [List.mem_filterMap]
  constructor
  · rintro ⟨a, ha, h⟩
    cases a <;> simp at h
    subst h
    exact ha
  · intro h
    exact ⟨_, h, rfl⟩

theorem introAttempts_recent (w : Collaborators) (worker : WorkerContext) (e : GuildCreate)
    (hb : w.IsGuildBlacklisted e.Guild.Id = false) (hrecent : w.Now - e.JoinedAt < Minute) :
    introAttempts (OnGuildCreate w worker e)
      = e.Guild.OwnerId
          :: (if (getInviter w worker e.Guild.Id).1 ≠ 0
                ∧ (getInviter w worker e.Guild.Id).1 ≠ e.Guild.OwnerId then
              [(getInviter w worker e.Guild.Id).1]
            else []) := by
  have hdelete : introAttempts (Action.deleteGuildLeaveTime e.Guild.Id
      :: (match w.DeleteGuildLeaveTime e.Guild.Id with
          | some err => [Action.sentryError err]
          | none => [])) = [] := by
    cases w.DeleteGuildLeaveTime e.Guild.Id <;> rfl
  have hkey : introAttempts [Action.incrementKey w.KeyJoins] = [] := rfl
  rw [OnGuildCreate_recent w worker e hb hrecent]
  simp only [introAttempts_append, hkey, hdelete, introAttempts_sendIntroMessage,
    introAttempts_getInviter, introAttempts_addAdminRoles, List.nil_append, List.append_nil]
  split_ifs
  · simp [introAttempts_sendIntroMessage]
  · simp [introAttempts]

theorem adminsAdded_recent (w : Collaborators) (worker : WorkerContext) (e : GuildCreate)
    (hb : w.IsGuildBlacklisted e.Guild.Id = false) (hrecent : w.Now - e.JoinedAt < Minute) :
    adminsAdded (OnGuildCreate w worker e) = adminsAdded (addAdminRoles w e.Guild.Id e.Roles) := by
  have hdelete : adminsAdded (Action.deleteGuildLeaveTime e.Guild.Id
      :: (match w.DeleteGuildLeaveTime e.Guild.Id with
          | some err => [Action.sentryError err]
          | none => [])) = [] := by
    cases w.DeleteGuildLeaveTime e.Guild.Id <;> rfl
  have hkey : adminsAdded [Action.incrementKey w.KeyJoins] = [] := rfl
  have hif : adminsAdded (if (getInviter w worker e.Guild.Id).1 ≠ 0
        ∧ (getInviter w worker e.Guild.Id).1 ≠ e.Guild.OwnerId then
      sendIntroMessage w e.Guild (getInviter w worker e.Guild.Id).1
    else []) = [] := by
    split_ifs
    · exact adminsAdded_sendIntroMessage _ _ _
    · rfl
  rw [OnGuildCreate_recent w worker e hb hrecent]
  simp only [adminsAdded_append, hkey, hdelete, hif, adminsAdded_sendIntroMessage,
    adminsAdded_getInviter, List.nil_append, List.append_nil]

theorem findInviter_eq_find (w : Collaborators) (worker : WorkerContext)
    (entries : List AuditLogEntry) :
    findInviter w worker entries
      = match entries.find? (fun entry =>
          entry.ActionType == w.EventBotAdd && entry.TargetId == worker.BotId) with
        | some entry => entry.UserId
        | none => 0 := by
  induction entries with
  | nil => rfl
  | cons entry entries ih =>
    unfold findInviter
    by_cases h1 : entry.ActionType = w.EventBotAdd
    · by_cases h2 : entry.TargetId = worker.BotId
      · simp [h1, h2, List.find?_cons]
      · simp [h1, h2, List.find?_cons, ih]
    · simp [h1, List.find?_cons, ih]

theorem findInviter_append (w : Collaborators) (worker : WorkerContext)
    (before after : List AuditLogEntry) (entry : AuditLogEntry)
    (hbefore : ∀ x ∈ before, ¬ (x.ActionType = w.EventBotAdd ∧ x.TargetId = worker.BotId))
    (htype : entry.ActionType = w.EventBotAdd) (htarget : entry.TargetId = worker.BotId) :
    findInviter w worker (before ++ entry :: after) = entry.UserId := by
  induction before with
  | nil => simp [findInviter, htype, htarget]
  | cons x before ih =>
    have hx := hbefore x (List.mem_cons_self _ _)
    have ih' := ih (fun y hy => hbefore y (List.mem_cons_of_mem _ hy))
    rw [List.cons_append]
    unfold findInviter
    by_cases h1 : x.ActionType = w.EventBotAdd
    · have h2 : ¬ x.TargetId = worker.BotId := fun h2 => hx ⟨h1, h2⟩
      simp [h1, h2, ih']
    · simp [h1, ih']

/-! ## The claims -/

/-- C1: when every command of the registry declares a category of
`command.Categories`, the titles of the sections of the help embed form a
subsequence of `command.Categories`, no title occurs twice, and the titles are
the same for every order in which the registry is iterated. -/
theorem help_titles_follow_category_order (p : Packages) (c : HelpCommand)
    (ctx : CommandContext)
    (h : ∀ cmd ∈ c.Registry, cmd.Properties.Category ∈ p.Categories) :
    (embedTitles (HelpCommand.Execute p c ctx)).Sublist p.Categories
      ∧ (embedTitles (HelpCommand.Execute p c ctx)).Nodup
      ∧ ∀ c' : HelpCommand, c'.Registry.Perm c.Registry →
          embedTitles (HelpCommand.Execute p c' ctx)
            = embedTitles (HelpCommand.Execute p c ctx) := by
  cases hperm : ctx.UserPermissionLevel with
  | error err =>
    simp [embedTitles_error_perm p _ ctx err hperm]
  | ok permLevel =>
    cases hids : p.LoadCommandIds ctx.Worker ctx.Worker.BotId with
    | error err =>
      simp [embedTitles_error_ids p _ ctx permLevel err hperm hids]
    | ok commandIds =>
      have hkeys : ∀ c' : HelpCommand, c'.Registry.Perm c.Registry →
          OrderedMap.Keys (helpMap p c' ctx permLevel)
            = OrderedMap.Keys (initCategories p.Categories) := by
        intro c' hc'
        apply groupCommands_keys_eq
        intro cmd hcmd _
        exact (initCategories_mem_keys _ _).2 (h cmd (hc'.mem_iff.1 hcmd))
      refine ⟨?_, ?_, ?_⟩
      · rw [embedTitles_ok p c ctx permLevel commandIds hperm hids, hkeys c (List.Perm.refl _)]
        exact (List.filter_sublist _).trans (initCategories_keys_sublist _)
      · rw [embedTitles_ok p c ctx permLevel commandIds hperm hids]
        exact (helpMap_keys_nodup p c ctx permLevel).filter _
      · intro c' hc'
        rw [embedTitles_ok p c ctx permLevel commandIds hperm hids,
          embedTitles_ok p c' ctx permLevel commandIds hperm hids, hkeys c (List.Perm.refl _),
          hkeys c' hc']
        apply List.filter_congr
        intro k _
        have hiff : groupOf (helpMap p c' ctx permLevel) k ≠ []
            ↔ groupOf (helpMap p c ctx permLevel) k ≠ [] := by
          rw [helpMap_groupOf_ne_nil, helpMap_groupOf_ne_nil]
          constructor
          · rintro ⟨cmd, hcmd, hrest⟩
            exact ⟨cmd, hc'.mem_iff.1 hcmd, hrest⟩
          · rintro ⟨cmd, hcmd, hrest⟩
            exact ⟨cmd, hc'.mem_iff.2 hcmd, hrest⟩
        exact decide_eq_decide.2 hiff

/-- Witness of C1: in the scenario an `Admin` caller gets the sections General,
Settings, Moderation, in that order, from a registry iterated in another
order. -/
theorem help_titles_follow_category_order_witness :
    embedTitles (HelpCommand.Execute scenarioPackages scenarioHelp (scenarioContext Admin))
        = ["General", "Settings", "Moderation"]
      ∧ (embedTitles (HelpCommand.Execute scenarioPackages scenarioHelp
          (scenarioContext Admin))).Sublist scenarioPackages.Categories :=
  ⟨by decide,
    (help_titles_follow_category_order scenarioPackages scenarioHelp (scenarioContext Admin)
      (by decide)).1⟩

/-- C2, as stated, fails: an eligible command that declares the category
`Extras`, which is not in `Categories`, gets a section titled `Extras`. -/
theorem help_renders_undeclared_category :
    "Extras" ∉ scenarioPackages.Categories
      ∧ embedTitles (HelpCommand.Execute scenarioPackages strayHelp (scenarioContext Everyone))
          = ["General", "Extras"] := by
  decide

/-- C2, amended: when permission resolution and id loading succeed, a category
titles a section exactly when some registered command that passes the checks
declares it; so every title lies in `command.Categories` when the categories of
the eligible commands do, and a category outside `command.Categories` is
rendered when an eligible command declares it. -/
theorem help_titles_are_eligible_categories (p : Packages) (c : HelpCommand)
    (ctx : CommandContext) (permLevel : PermissionLevel) (commandIds : CommandIds)
    (hperm : ctx.UserPermissionLevel = .ok permLevel)
    (hids : p.LoadCommandIds ctx.Worker ctx.Worker.BotId = .ok commandIds) :
    (∀ t : Category, t ∈ embedTitles (HelpCommand.Execute p c ctx)
        ↔ ∃ cmd ∈ c.Registry, eligible p ctx permLevel cmd = true
            ∧ cmd.Properties.Category = t)
      ∧ ((∀ cmd ∈ c.Registry, eligible p ctx permLevel cmd = true →
            cmd.Properties.Category ∈ p.Categories) →
          ∀ t ∈ embedTitles (HelpCommand.Execute p c ctx), t ∈ p.Categories) := by
  refine ⟨mem_embedTitles_iff p c ctx permLevel commandIds hperm hids, ?_⟩
  intro hall t ht
  obtain ⟨cmd, hcmd, hel, hcat⟩ :=
    (mem_embedTitles_iff p c ctx permLevel commandIds hperm hids t).1 ht
  exact hcat ▸ hall cmd hcmd hel

/-- Witness of the amended C2, on the registry with the undeclared category. -/
theorem help_titles_are_eligible_categories_witness :
    ("Extras" ∈ embedTitles (HelpCommand.Execute scenarioPackages strayHelp
        (scenarioContext Everyone))
      ↔ ∃ cmd ∈ strayHelp.Registry,
          eligible scenarioPackages (scenarioContext Everyone) Everyone cmd = true
            ∧ cmd.Properties.Category = "Extras") :=
  (help_titles_are_eligible_categories scenarioPackages strayHelp (scenarioContext Everyone)
    Everyone (fun _ => none) rfl rfl).1 "Extras"

/-- C3: when the names of the registry's commands are pairwise distinct, the
commands of every rendered section are handed to the formatter in strictly
ascending order of `Properties().Name`, and the value of the section's field is
the formatter's lines for them, joined in that order. -/
theorem help_sections_sorted_by_name (p : Packages) (c : HelpCommand) (ctx : CommandContext)
    (h : (c.Registry.map (fun cmd => cmd.Properties.Name)).Nodup) :
    (∀ s ∈ (HelpCommand.Execute p c ctx).sections,
        (s.calls.map (fun call => call.cmd.Properties.Name)).Sorted (· < ·))
      ∧ ∀ e, (HelpCommand.Execute p c ctx).reply = some e →
          e.Fields = (HelpCommand.Execute p c ctx).sections.map (fun s =>
            { Name := s.title
              Value := "\n".intercalate
                (s.calls.map (fun call => p.FormatHelp call.cmd call.guildId call.commandId))
              Inline := false }) := by
  refine ⟨?_, fun e he => Execute_fields p c ctx e he⟩
  intro s hs
  rcases Execute_sections_cases p c ctx with ⟨hnil, _⟩ | ⟨permLevel, commandIds, _, _, heq⟩
  · rw [hnil] at hs
    simp at hs
  · rw [heq, mem_renderSections] at hs
    obtain ⟨_, _, hcalls⟩ := hs
    rw [hcalls, List.map_map]
    have hnd : ((groupOf (helpMap p c ctx permLevel) s.title).map
        (fun cmd => cmd.Properties.Name)).Nodup := by
      rw [helpMap_groupOf]
      exact h.sublist ((List.filter_sublist _).map _)
    exact sortSlice_sorted_lt _ hnd

/-- Witness of C3: three commands of one category, registered as ping, about,
help, are formatted as about, help, ping. -/
theorem help_sections_sorted_by_name_witness :
    (HelpCommand.Execute scenarioPackages generalHelp (scenarioContext Everyone)).sections.map
        (fun s => s.calls.map (fun call => call.cmd.Properties.Name))
        = [["about", "help", "ping"]]
      ∧ ∀ s ∈ (HelpCommand.Execute scenarioPackages generalHelp
          (scenarioContext Everyone)).sections,
          (s.calls.map (fun call => call.cmd.Properties.Name)).Sorted (· < ·) :=
  ⟨by decide,
    (help_sections_sorted_by_name scenarioPackages generalHelp (scenarioContext Everyone)
      (by decide)).1⟩

/-- C4: a category for which no registered command passes the checks titles no
field of the help embed, and the formatter is called at least once for every
rendered section. -/
theorem help_omits_empty_categories (p : Packages) (c : HelpCommand) (ctx : CommandContext)
    (permLevel : PermissionLevel) (category : Category)
    (hperm : ctx.UserPermissionLevel = .ok permLevel)
    (hnone : ∀ cmd ∈ c.Registry, cmd.Properties.Category = category →
      eligible p ctx permLevel cmd = false) :
    category ∉ embedTitles (HelpCommand.Execute p c ctx)
      ∧ ∀ s ∈ (HelpCommand.Execute p c ctx).sections, s.calls ≠ [] := by
  constructor
  · cases hids : p.LoadCommandIds ctx.Worker ctx.Worker.BotId with
    | error err => simp [embedTitles_error_ids p c ctx permLevel err hperm hids]
    | ok commandIds =>
      rw [mem_embedTitles_iff p c ctx permLevel commandIds hperm hids]
      rintro ⟨cmd, hcmd, hel, hcat⟩
      rw [hnone cmd hcmd hcat] at hel
      exact Bool.false_ne_true hel
  · intro s hs
    rcases Execute_sections_cases p c ctx with ⟨hnil, _⟩ | ⟨L, commandIds, _, _, heq⟩
    · rw [hnil] at hs
      simp at hs
    · rw [heq, mem_renderSections] at hs
      obtain ⟨_, hne, hcalls⟩ := hs
      rw [hcalls]
      intro hmap
      exact hne ((sortSlice_eq_nil _).1 (List.map_eq_nil_iff.1 hmap))

/-- Witness of C4: in the scenario a caller at level `Everyone` gets exactly one
section, General, with the one command ping; Settings is not rendered. -/
theorem help_omits_empty_categories_witness :
    "Settings" ∉ embedTitles
        (HelpCommand.Execute scenarioPackages scenarioHelp (scenarioContext Everyone))
      ∧ (HelpCommand.Execute scenarioPackages scenarioHelp (scenarioContext Everyone)).sections.map
          (fun s => (s.title, s.calls.map (fun call => call.cmd.Properties.Name)))
          = [("General", ["ping"])] :=
  ⟨(help_omits_empty_categories scenarioPackages scenarioHelp (scenarioContext Everyone)
      Everyone "Settings" rfl (by decide)).1, by decide⟩

/-- C5: with the caller context otherwise fixed, a command listed when the
permission level resolves to `L` is listed when it resolves to a higher level. -/
theorem help_eligibility_monotone (p : Packages) (c : HelpCommand) (ctx : CommandContext)
    (cmd : Command) (L L' : PermissionLevel) (hlt : L < L')
    (h : (HelpCommand.Execute p c (withPermissionLevel ctx L)).lists cmd) :
    (HelpCommand.Execute p c (withPermissionLevel ctx L')).lists cmd := by
  obtain ⟨L0, commandIds, hperm, hids, hreg, hel⟩ := lists_imp p c _ cmd h
  have hL : L0 = L := (Except.ok.inj hperm).symm
  subst hL
  refine (lists_iff p c (withPermissionLevel ctx L') L' commandIds rfl hids cmd).2 ⟨hreg, ?_⟩
  have h5 := (eligible_iff p (withPermissionLevel ctx L0) L0 cmd).1 hel
  exact (eligible_iff p (withPermissionLevel ctx L') L' cmd).2
    ⟨h5.1, h5.2.1, h5.2.2.1, h5.2.2.2.1, le_trans h5.2.2.2.2 (le_of_lt hlt)⟩

/-- Witness of C5: `addadmin`, listed for a caller at level `Admin`, is listed
at the level above. -/
theorem help_eligibility_monotone_witness :
    (HelpCommand.Execute scenarioPackages scenarioHelp
      (withPermissionLevel (scenarioContext Everyone) 3)).lists
        (mkCommand "addadmin" Admin "Settings") :=
  help_eligibility_monotone scenarioPackages scenarioHelp (scenarioContext Everyone)
    (mkCommand "addadmin" Admin "Settings") Admin 3 (by decide) (by decide)

/-- C6: when permission resolution and id loading succeed, a command is listed
exactly when it is registered and passes the checks (role restriction, slash
command type, deployment restriction, permission level); the listed commands,
all sections together, are a rearrangement of the registry's eligible entries,
so each is rendered once; every command stands in the section titled by its own
category, and no two sections share a title; and the embed handed to
`ctx.ReplyWith` has one field per section, in order, titled by the section's
category, whose value is the formatter's lines for the section's commands, each
formatted with the guild id and the id the mapping gives for its name, joined
by newlines. -/
theorem help_lists_exactly_eligible (p : Packages) (c : HelpCommand) (ctx : CommandContext)
    (permLevel : PermissionLevel) (commandIds : CommandIds)
    (hperm : ctx.UserPermissionLevel = .ok permLevel)
    (hids : p.LoadCommandIds ctx.Worker ctx.Worker.BotId = .ok commandIds) :
    (∀ cmd, (HelpCommand.Execute p c ctx).lists cmd
        ↔ cmd ∈ c.Registry
          ∧ ¬ (cmd.Properties.AdminOnly = true ∧ p.IsBotAdmin ctx.UserId = false)
          ∧ ¬ (cmd.Properties.HelperOnly = true ∧ p.IsBotHelper ctx.UserId = false)
          ∧ cmd.Properties.Type_ = ApplicationCommandTypeChatInput
          ∧ ¬ (cmd.Properties.MainBotOnly = true ∧ ctx.Worker.IsWhitelabel = true)
          ∧ permLevel ≥ cmd.Properties.PermissionLevel)
      ∧ ((HelpCommand.Execute p c ctx).sections.flatMap
            (fun s => s.calls.map (fun call => call.cmd))).Perm
          (c.Registry.filter (fun cmd => decide ((HelpCommand.Execute p c ctx).lists cmd)))
      ∧ (∀ s ∈ (HelpCommand.Execute p c ctx).sections, ∀ call ∈ s.calls,
          call.cmd.Properties.Category = s.title)
      ∧ ((HelpCommand.Execute p c ctx).sections.map (fun s => s.title)).Nodup
      ∧ ∃ e, (HelpCommand.Execute p c ctx).reply = some e
          ∧ e.Fields = (HelpCommand.Execute p c ctx).sections.map (fun s =>
              { Name := s.title
                Value := "\n".intercalate (s.calls.map (fun call =>
                  p.FormatHelp call.cmd ctx.GuildId (commandIds call.cmd.Properties.Name)))
                Inline := false }) := by
  refine ⟨?_, ?_, ?_, ?_, ?_⟩
  · intro cmd
    rw [lists_iff p c ctx permLevel commandIds hperm hids, eligible_iff]
  · have hfilter : c.Registry.filter
          (fun cmd => decide ((HelpCommand.Execute p c ctx).lists cmd))
        = c.Registry.filter (eligible p ctx permLevel) := by
      apply List.filter_congr
      intro cmd hcmd
      cases hel : eligible p ctx permLevel cmd
      · rw [decide_eq_false_iff_not, lists_iff p c ctx permLevel commandIds hperm hids]
        intro hl
        rw [hel] at hl
        exact Bool.false_ne_true hl.2
      · rw [decide_eq_true_eq, lists_iff p c ctx permLevel commandIds hperm hids]
        exact ⟨hcmd, hel⟩
    rw [hfilter, Execute_ok p c ctx permLevel commandIds hperm hids]
    exact rendered_perm_eligible p c ctx permLevel commandIds
  · intro s hs call hcall
    rw [Execute_ok p c ctx permLevel commandIds hperm hids] at hs
    simp only at hs
    rw [mem_renderSections] at hs
    obtain ⟨_, _, hcalls⟩ := hs
    rw [hcalls, List.mem_map] at hcall
    obtain ⟨cmd, hcmd, rfl⟩ := hcall
    rw [sortSlice_mem, helpMap_groupOf, List.mem_filter, Bool.and_eq_true,
      decide_eq_true_eq] at hcmd
    exact hcmd.2.2
  · rw [← embedTitles_eq, embedTitles_ok p c ctx permLevel commandIds hperm hids]
    exact (helpMap_keys_nodup p c ctx permLevel).filter _
  · rw [Execute_ok p c ctx permLevel commandIds hperm hids]
    refine ⟨_, rfl, ?_⟩
    simp only
    apply List.map_congr_left
    intro s hs
    rw [mem_renderSections] at hs
    obtain ⟨_, _, hcalls⟩ := hs
    simp only [sectionField, hcalls, List.map_map, Function.comp_def]

/-- Witness of C6: in the scenario, at level `Admin`, the three commands are
listed, each once, under its own category, and the embed sent has the three
fields General, Settings and Moderation with the lines of ping, addadmin and
ban. -/
theorem help_lists_exactly_eligible_witness :
    (HelpCommand.Execute scenarioPackages scenarioHelp (scenarioContext Admin)).sections.map
        (fun s => (s.title, s.calls.map (fun call => call.cmd.Properties.Name)))
        = [("General", ["ping"]), ("Settings", ["addadmin"]), ("Moderation", ["ban"])]
      ∧ ((HelpCommand.Execute scenarioPackages scenarioHelp (scenarioContext Admin)).reply).map
          (fun e => e.Fields)
        = some [{ Name := "General", Value := "ping", Inline := false },
                { Name := "Settings", Value := "addadmin", Inline := false },
                { Name := "Moderation", Value := "ban", Inline := false }]
      ∧ ((HelpCommand.Execute scenarioPackages scenarioHelp (scenarioContext Admin)).sections.map
          (fun s => s.title)).Nodup :=
  ⟨by decide, by decide,
    (help_lists_exactly_eligible scenarioPackages scenarioHelp (scenarioContext Admin) Admin
      (fun _ => none) rfl rfl).2.2.2.1⟩

/-- C7: on a whitelabel deployment a command with `MainBotOnly` is never
listed, whoever calls and whatever the permission level resolves to. -/
theorem help_hides_main_bot_only (p : Packages) (c : HelpCommand) (ctx : CommandContext)
    (cmd : Command) (hw : ctx.Worker.IsWhitelabel = true)
    (hm : cmd.Properties.MainBotOnly = true) :
    ¬ (HelpCommand.Execute p c ctx).lists cmd := by
  intro h
  obtain ⟨L, _, _, _, _, hel⟩ := lists_imp p c ctx cmd h
  exact ((eligible_iff p ctx L cmd).1 hel).2.2.2.1 ⟨hm, hw⟩

/-- Witness of C7: `setup` is listed on the main bot and not on a whitelabel
deployment, for the same caller. -/
theorem help_hides_main_bot_only_witness :
    (HelpCommand.Execute scenarioPackages { Registry := [setupCommand] }
        (scenarioContext Admin)).lists setupCommand
      ∧ ¬ (HelpCommand.Execute scenarioPackages { Registry := [setupCommand] }
        (whitelabelContext Admin)).lists setupCommand :=
  ⟨by decide,
    help_hides_main_bot_only scenarioPackages { Registry := [setupCommand] }
      (whitelabelContext Admin) setupCommand rfl rfl⟩

/-- C8: the role restriction excludes a command when it is `AdminOnly` and the
caller is not a bot admin, and when it is `HelperOnly` and the caller is not a
bot helper; a command that sets both is listed only for a caller who is both;
for a command that sets neither, listing is decided by the other checks
alone. -/
theorem help_role_restriction_conjunctive (p : Packages) (c : HelpCommand)
    (ctx : CommandContext) (cmd : Command) :
    (((cmd.Properties.AdminOnly = true ∧ p.IsBotAdmin ctx.UserId = false)
          ∨ (cmd.Properties.HelperOnly = true ∧ p.IsBotHelper ctx.UserId = false)) →
        ¬ (HelpCommand.Execute p c ctx).lists cmd)
      ∧ (cmd.Properties.AdminOnly = true → cmd.Properties.HelperOnly = true →
          (HelpCommand.Execute p c ctx).lists cmd →
          p.IsBotAdmin ctx.UserId = true ∧ p.IsBotHelper ctx.UserId = true)
      ∧ (cmd.Properties.AdminOnly = false → cmd.Properties.HelperOnly = false →
          ∀ permLevel commandIds, ctx.UserPermissionLevel = .ok permLevel →
          p.LoadCommandIds ctx.Worker ctx.Worker.BotId = .ok commandIds →
          ((HelpCommand.Execute p c ctx).lists cmd
            ↔ cmd ∈ c.Registry
              ∧ cmd.Properties.Type_ = ApplicationCommandTypeChatInput
              ∧ ¬ (cmd.Properties.MainBotOnly = true ∧ ctx.Worker.IsWhitelabel = true)
              ∧ permLevel ≥ cmd.Properties.PermissionLevel)) := by
  refine ⟨?_, ?_, ?_⟩
  · intro hrole h
    obtain ⟨L, _, _, _, _, hel⟩ := lists_imp p c ctx cmd h
    have h5 := (eligible_iff p ctx L cmd).1 hel
    rcases hrole with hadmin | hhelper
    · exact h5.1 hadmin
    · exact h5.2.1 hhelper
  · intro hadmin hhelper h
    obtain ⟨L, _, _, _, _, hel⟩ := lists_imp p c ctx cmd h
    have h5 := (eligible_iff p ctx L cmd).1 hel
    constructor
    · cases hb : p.IsBotAdmin ctx.UserId
      · exact absurd ⟨hadmin, hb⟩ h5.1
      · rfl
    · cases hb : p.IsBotHelper ctx.UserId
      · exact absurd ⟨hhelper, hb⟩ h5.2.1
      · rfl
  · intro hadmin hhelper permLevel commandIds hperm hids
    rw [lists_iff p c ctx permLevel commandIds hperm hids, eligible_iff]
    simp [hadmin, hhelper]

/-- Witness of C8: a command that is both `AdminOnly` and `HelperOnly` is not
listed for a bot admin who is not a bot helper, and is listed for a caller who is
both. -/
theorem help_role_restriction_conjunctive_witness :
    ¬ (HelpCommand.Execute (staffPackages true false) { Registry := [staffCommand] }
        (scenarioContext Admin)).lists staffCommand
      ∧ (HelpCommand.Execute (staffPackages true true) { Registry := [staffCommand] }
        (scenarioContext Admin)).lists staffCommand :=
  ⟨(help_role_restriction_conjunctive (staffPackages true false) { Registry := [staffCommand] }
      (scenarioContext Admin) staffCommand).1 (Or.inr ⟨rfl, rfl⟩),
    by decide⟩

/-- C9: for every id mapping that was loaded, the rendered sections and the
commands of each section, in order, are the same; the id handed to the formatter
for a command is the mapping's value at the command's name (`none` without an
entry); no error is handed to `ctx.HandleError` and the reply is sent. -/
theorem help_independent_of_command_ids (p : Packages) (c : HelpCommand)
    (ctx : CommandContext) (permLevel : PermissionLevel) (commandIds commandIds' : CommandIds)
    (hperm : ctx.UserPermissionLevel = .ok permLevel) :
    (HelpCommand.Execute (withCommandIds p commandIds) c ctx).sections.map
        (fun s => (s.title, s.calls.map (fun call => call.cmd)))
        = (HelpCommand.Execute (withCommandIds p commandIds') c ctx).sections.map
            (fun s => (s.title, s.calls.map (fun call => call.cmd)))
      ∧ (∀ s ∈ (HelpCommand.Execute (withCommandIds p commandIds) c ctx).sections,
          ∀ call ∈ s.calls, call.commandId = commandIds call.cmd.Properties.Name)
      ∧ (HelpCommand.Execute (withCommandIds p commandIds) c ctx).handled = []
      ∧ ((HelpCommand.Execute (withCommandIds p commandIds) c ctx).reply).isSome = true := by
  have hok := Execute_ok (withCommandIds p commandIds) c ctx permLevel commandIds hperm rfl
  have hok' := Execute_ok (withCommandIds p commandIds') c ctx permLevel commandIds' hperm rfl
  have hmap : helpMap (withCommandIds p commandIds') c ctx permLevel
      = helpMap (withCommandIds p commandIds) c ctx permLevel := rfl
  refine ⟨?_, ?_, ?_, ?_⟩
  · rw [hok, hok']
    simp only
    rw [renderSections_commands, renderSections_commands, hmap]
  · intro s hs call hcall
    rw [hok] at hs
    simp only at hs
    rw [mem_renderSections] at hs
    obtain ⟨_, _, hcalls⟩ := hs
    rw [hcalls, List.mem_map] at hcall
    obtain ⟨cmd, _, rfl⟩ := hcall
    rfl
  · rw [hok]
  · rw [hok]
    rfl

/-- Witness of C9: in the scenario, a mapping with an entry for `ping` only
hands `ping` its id and `ban` none, and the reply is sent. -/
theorem help_independent_of_command_ids_witness :
    (HelpCommand.Execute
        (withCommandIds scenarioPackages (fun name => if name = "ping" then some 42 else none))
        scenarioHelp (scenarioContext Admin)).sections.map
        (fun s => s.calls.map (fun call => (call.cmd.Properties.Name, call.commandId)))
        = [[("ping", some 42)], [("addadmin", none)], [("ban", none)]]
      ∧ (HelpCommand.Execute
          (withCommandIds scenarioPackages (fun name => if name = "ping" then some 42 else none))
          scenarioHelp (scenarioContext Admin)).handled = [] :=
  ⟨by decide,
    (help_independent_of_command_ids scenarioPackages scenarioHelp (scenarioContext Admin) Admin
      (fun name => if name = "ping" then some 42 else none) (fun _ => none) rfl).2.2.1⟩

/-- C10: when `ctx.ReplyWith` returns an error, nothing is handed to
`ctx.HandleError`; the embed was handed to `ctx.ReplyWith`, and the outcome is
that of a run in which the delivery succeeds. -/
theorem help_swallows_reply_failure (p : Packages) (c : HelpCommand) (ctx : CommandContext)
    (permLevel : PermissionLevel) (commandIds : CommandIds) (err : Error)
    (hperm : ctx.UserPermissionLevel = .ok permLevel)
    (hids : p.LoadCommandIds ctx.Worker ctx.Worker.BotId = .ok commandIds)
    (hfail : ∀ e, ctx.ReplyWith e = some err) :
    (HelpCommand.Execute p c ctx).handled = []
      ∧ (∃ e, (HelpCommand.Execute p c ctx).reply = some e ∧ ctx.ReplyWith e = some err)
      ∧ (HelpCommand.Execute p c ctx).handled
          = (HelpCommand.Execute p c { ctx with ReplyWith := fun _ => none }).handled
      ∧ (HelpCommand.Execute p c ctx).reply
          = (HelpCommand.Execute p c { ctx with ReplyWith := fun _ => none }).reply := by
  have hok := Execute_ok p c ctx permLevel commandIds hperm hids
  refine ⟨?_, ?_, rfl, rfl⟩
  · rw [hok]
  · rw [hok]
    exact ⟨_, rfl, hfail _⟩

/-- Witness of C10: in the scenario, a caller whose direct messages are closed
(`ctx.ReplyWith` fails with 403) has no error reported. -/
theorem help_swallows_reply_failure_witness :
    (HelpCommand.Execute scenarioPackages scenarioHelp (unreachableContext Admin)).handled = [] :=
  (help_swallows_reply_failure scenarioPackages scenarioHelp (unreachableContext Admin) Admin
    (fun _ => none) "403 Cannot send messages to this user" rfl rfl (fun _ => rfl)).1

/-- C11, as stated, fails: a delivery failure that is not "recipient
unreachable" is not handed to `ctx.HandleError` either. -/
theorem help_ignores_other_reply_failure :
    (∀ e, (serverErrorContext Admin).ReplyWith e = some "500 Internal Server Error")
      ∧ "500 Internal Server Error" ≠ "403 Cannot send messages to this user"
      ∧ (HelpCommand.Execute scenarioPackages scenarioHelp (serverErrorContext Admin)).handled = []
      ∧ ((HelpCommand.Execute scenarioPackages scenarioHelp
          (serverErrorContext Admin)).reply).isSome = true :=
  ⟨fun _ => rfl, by decide, by decide, by decide⟩

/-- C11, amended: `Execute` does not distinguish delivery failures. Whatever
`ctx.ReplyWith` returns, a failure of any kind or none, nothing is handed to
`ctx.HandleError`, and the same embed is handed to `ctx.ReplyWith`. -/
theorem help_swallows_every_reply_failure (p : Packages) (c : HelpCommand)
    (ctx : CommandContext) (permLevel : PermissionLevel) (commandIds : CommandIds)
    (hperm : ctx.UserPermissionLevel = .ok permLevel)
    (hids : p.LoadCommandIds ctx.Worker ctx.Worker.BotId = .ok commandIds)
    (replyWith : Embed → Option Error) :
    (HelpCommand.Execute p c { ctx with ReplyWith := replyWith }).handled = []
      ∧ ((HelpCommand.Execute p c { ctx with ReplyWith := replyWith }).reply).isSome = true
      ∧ (HelpCommand.Execute p c { ctx with ReplyWith := replyWith }).reply
          = (HelpCommand.Execute p c ctx).reply := by
  have hok := Execute_ok p c { ctx with ReplyWith := replyWith } permLevel commandIds hperm hids
  refine ⟨?_, ?_, rfl⟩
  · rw [hok]
  · rw [hok]
    rfl

/-- Witness of the amended C11: a delivery that fails with a server error
leaves the error sink untouched. -/
theorem help_swallows_every_reply_failure_witness :
    (HelpCommand.Execute scenarioPackages scenarioHelp
      { scenarioContext Admin with
        ReplyWith := fun _ => some "500 Internal Server Error" }).handled = [] :=
  (help_swallows_every_reply_failure scenarioPackages scenarioHelp (scenarioContext Admin) Admin
    (fun _ => none) rfl rfl (fun _ => some "500 Internal Server Error")).1

/-- C13: `Execute` sends a reply exactly when the permission level is resolved
and the command ids are loaded. When the resolution fails, its error is handed
to `ctx.HandleError`, the command ids are not loaded and no reply is sent; when
the loading fails, its error is handed to `ctx.HandleError` and no reply is
sent. -/
theorem help_replies_iff_resolved (p : Packages) (c : HelpCommand) (ctx : CommandContext) :
    (((HelpCommand.Execute p c ctx).reply).isSome = true
        ↔ ∃ permLevel commandIds, ctx.UserPermissionLevel = .ok permLevel
            ∧ p.LoadCommandIds ctx.Worker ctx.Worker.BotId = .ok commandIds)
      ∧ (∀ err, ctx.UserPermissionLevel = .error err →
          (HelpCommand.Execute p c ctx).handled = [err]
            ∧ (HelpCommand.Execute p c ctx).loadedCommandIds = false
            ∧ (HelpCommand.Execute p c ctx).reply = none)
      ∧ (∀ permLevel err, ctx.UserPermissionLevel = .ok permLevel →
          p.LoadCommandIds ctx.Worker ctx.Worker.BotId = .error err →
          (HelpCommand.Execute p c ctx).handled = [err]
            ∧ (HelpCommand.Execute p c ctx).loadedCommandIds = true
            ∧ (HelpCommand.Execute p c ctx).reply = none) := by
  refine ⟨?_, ?_, ?_⟩
  · constructor
    · intro h
      cases hperm : ctx.UserPermissionLevel with
      | error err => simp [HelpCommand.Execute, hperm] at h
      | ok permLevel =>
        cases hids : p.LoadCommandIds ctx.Worker ctx.Worker.BotId with
        | error err => simp [HelpCommand.Execute, hperm, hids] at h
        | ok commandIds => exact ⟨permLevel, commandIds, rfl, rfl⟩
    · rintro ⟨permLevel, commandIds, hperm, hids⟩
      rw [Execute_ok p c ctx permLevel commandIds hperm hids]
      rfl
  · intro err hperm
    simp [HelpCommand.Execute, hperm]
  · intro permLevel err hperm hids
    simp [HelpCommand.Execute, hperm, hids]

/-- Witness of C13: a failed permission resolution is reported without loading
the ids or replying, and a failed id loading is reported without replying. -/
theorem help_replies_iff_resolved_witness :
    ((HelpCommand.Execute scenarioPackages scenarioHelp unresolvedContext).handled
          = ["permission lookup failed"]
        ∧ (HelpCommand.Execute scenarioPackages scenarioHelp unresolvedContext).loadedCommandIds
          = false
        ∧ (HelpCommand.Execute scenarioPackages scenarioHelp unresolvedContext).reply = none)
      ∧ (HelpCommand.Execute failedIdsPackages scenarioHelp (scenarioContext Admin)).handled
          = ["command ids unavailable"] :=
  ⟨(help_replies_iff_resolved scenarioPackages scenarioHelp unresolvedContext).2.1
      "permission lookup failed" rfl,
    by decide⟩

/-- C14, as stated, fails: two registries with the same two commands, of
distinct names, give the sections in different orders when the commands'
categories are outside `Categories`. -/
theorem help_order_depends_on_iteration :
    strayPairHelpSwapped.Registry.Perm strayPairHelp.Registry
      ∧ (strayPairHelp.Registry.map (fun cmd => cmd.Properties.Name)).Nodup
      ∧ embedTitles (HelpCommand.Execute scenarioPackages strayPairHelp
          (scenarioContext Everyone)) = ["Extras", "Games"]
      ∧ embedTitles (HelpCommand.Execute scenarioPackages strayPairHelpSwapped
          (scenarioContext Everyone)) = ["Games", "Extras"] :=
  ⟨List.Perm.swap _ _ _, by decide, by decide, by decide⟩

/-- C14, amended: for two registries with the same commands, of pairwise
distinct names, and the same caller, level and id mapping, the sections
produced are the same up to their order, each with the same commands in the
same order; when every listed command declares a category of
`command.Categories`, the sequence of sections and the embed sent are
identical. -/
theorem help_deterministic_under_iteration (p : Packages) (c c' : HelpCommand)
    (ctx : CommandContext) (hperm : c'.Registry.Perm c.Registry)
    (hnd : (c.Registry.map (fun cmd => cmd.Properties.Name)).Nodup) :
    ((HelpCommand.Execute p c' ctx).sections).Perm (HelpCommand.Execute p c ctx).sections
      ∧ ((∀ cmd ∈ c.Registry, (HelpCommand.Execute p c ctx).lists cmd →
            cmd.Properties.Category ∈ p.Categories) →
          (HelpCommand.Execute p c' ctx).sections = (HelpCommand.Execute p c ctx).sections
            ∧ (HelpCommand.Execute p c' ctx).reply = (HelpCommand.Execute p c ctx).reply) := by
  cases hlevel : ctx.UserPermissionLevel with
  | error err => simp [HelpCommand.Execute, hlevel]
  | ok permLevel =>
    cases hids : p.LoadCommandIds ctx.Worker ctx.Worker.BotId with
    | error err => simp [HelpCommand.Execute, hlevel, hids]
    | ok commandIds =>
      have hrender : renderCategory ctx commandIds (helpMap p c' ctx permLevel)
          = renderCategory ctx commandIds (helpMap p c ctx permLevel) :=
        funext (renderCategory_congr_perm p c c' ctx permLevel commandIds hperm hnd)
      constructor
      · rw [Execute_ok p c ctx permLevel commandIds hlevel hids,
          Execute_ok p c' ctx permLevel commandIds hlevel hids]
        simp only [renderSections, hrender]
        exact (helpMap_keys_perm p c c' ctx permLevel hperm).filterMap _
      · intro hcat
        have hkeys : ∀ d : HelpCommand, d.Registry.Perm c.Registry →
            OrderedMap.Keys (helpMap p d ctx permLevel)
              = OrderedMap.Keys (initCategories p.Categories) := by
          intro d hd
          apply groupCommands_keys_eq
          intro cmd hcmd hel
          apply (initCategories_mem_keys _ _).2
          apply hcat cmd (hd.mem_iff.1 hcmd)
          exact (lists_iff p c ctx permLevel commandIds hlevel hids cmd).2
            ⟨hd.mem_iff.1 hcmd, hel⟩
        have hsections : renderSections ctx commandIds (helpMap p c' ctx permLevel)
            = renderSections ctx commandIds (helpMap p c ctx permLevel) := by
          simp only [renderSections, hrender, hkeys c' hperm, hkeys c (List.Perm.refl _)]
        rw [Execute_ok p c ctx permLevel commandIds hlevel hids,
          Execute_ok p c' ctx permLevel commandIds hlevel hids]
        simp only [hsections, and_self]

/-- Witness of C14: the scenario's registry in two orders gives the same
sections for an `Admin` caller. -/
theorem help_deterministic_under_iteration_witness :
    (HelpCommand.Execute scenarioPackages { Registry := scenarioHelp.Registry.reverse }
        (scenarioContext Admin)).sections
      = (HelpCommand.Execute scenarioPackages scenarioHelp (scenarioContext Admin)).sections :=
  ((help_deterministic_under_iteration scenarioPackages scenarioHelp
      { Registry := scenarioHelp.Registry.reverse } (scenarioContext Admin)
      (List.reverse_perm _) (by decide)).2 (by decide)).1

/-- C12: for a guild that is not blacklisted and was joined less than one
minute ago, the roles handed to `RolePermissions.AddAdmin` are, in order, the
roles of the event that have the Administrator permission and whose id differs
from the guild id; so `AddAdmin` is called with a role id exactly when such a
role of the event has that id, and never with the id of `@everyone`, the guild
id. -/
theorem guild_create_adds_administrator_roles (w : Collaborators) (worker : WorkerContext)
    (e : GuildCreate) (hb : w.IsGuildBlacklisted e.Guild.Id = false)
    (hrecent : w.Now - e.JoinedAt < Minute) :
    adminsAdded (OnGuildCreate w worker e)
        = (e.Roles.filter (fun role =>
            w.HasPermissionRaw role.Permissions w.Administrator
              && decide (role.Id ≠ e.Guild.Id))).map (fun role => (e.Guild.Id, role.Id))
      ∧ (∀ roleId, Action.addAdmin e.Guild.Id roleId ∈ OnGuildCreate w worker e
          ↔ ∃ role ∈ e.Roles, role.Id = roleId
              ∧ w.HasPermissionRaw role.Permissions w.Administrator = true
              ∧ role.Id ≠ e.Guild.Id)
      ∧ ∀ guildId, Action.addAdmin guildId e.Guild.Id ∉ OnGuildCreate w worker e := by
  have hlist := (adminsAdded_recent w worker e hb hrecent).trans
    (adminsAdded_addAdminRoles w e.Guild.Id e.Roles)
  refine ⟨hlist, ?_, ?_⟩
  · intro roleId
    rw [← mem_adminsAdded, hlist, List.mem_map]
    constructor
    · rintro ⟨role, hrole, heq⟩
      rw [List.mem_filter, Bool.and_eq_true, decide_eq_true_eq] at hrole
      exact ⟨role, hrole.1, (Prod.mk.inj heq).2, hrole.2.1, hrole.2.2⟩
    · rintro ⟨role, hrole, hid, hadmin, hne⟩
      refine ⟨role, ?_, by rw [hid]⟩
      rw [List.mem_filter, Bool.and_eq_true, decide_eq_true_eq]
      exact ⟨hrole, hadmin, hne⟩
  · intro guildId hmem
    rw [← mem_adminsAdded, hlist, List.mem_map] at hmem
    obtain ⟨role, hrole, heq⟩ := hmem
    rw [List.mem_filter, Bool.and_eq_true, decide_eq_true_eq] at hrole
    exact hrole.2.2 (Prod.mk.inj heq).2

/-- Witness of C12: of the roles `@everyone` (Administrator), `20`
(Administrator), `21` and `22` (Administrator) of a guild joined a second ago,
`20` and `22` are added as bot admins. -/
theorem guild_create_adds_administrator_roles_witness :
    adminsAdded (OnGuildCreate exampleCollaborators exampleWorker
        (exampleGuildCreate (99 * 1000000000))) = [(9, 20), (9, 22)]
      ∧ ∀ guildId, Action.addAdmin guildId 9 ∉ OnGuildCreate exampleCollaborators exampleWorker
          (exampleGuildCreate (99 * 1000000000)) :=
  ⟨by decide,
    (guild_create_adds_administrator_roles exampleCollaborators exampleWorker
      (exampleGuildCreate (99 * 1000000000)) rfl (by decide)).2.2⟩

/-- C15: for a blacklisted guild the listener calls `LeaveGuild` for that guild,
reports the error of that call if there is one, and does nothing else: no intro
message is attempted or sent, the join metric is not incremented, the guild leave
time is not deleted and no role is added as admin. -/
theorem guild_create_blacklisted_only_leaves (w : Collaborators) (worker : WorkerContext)
    (e : GuildCreate) (hb : w.IsGuildBlacklisted e.Guild.Id = true) :
    OnGuildCreate w worker e
        = Action.leaveGuild e.Guild.Id
            :: (match w.LeaveGuild e.Guild.Id with
                | some err => [Action.sentryError err]
                | none => [])
      ∧ introAttempts (OnGuildCreate w worker e) = []
      ∧ introsSent (OnGuildCreate w worker e) = []
      ∧ adminsAdded (OnGuildCreate w worker e) = []
      ∧ (∀ key, Action.incrementKey key ∉ OnGuildCreate w worker e)
      ∧ ∀ guildId, Action.deleteGuildLeaveTime guildId ∉ OnGuildCreate w worker e := by
  have h := OnGuildCreate_blacklisted w worker e hb
  refine ⟨h, ?_, ?_, ?_, ?_, ?_⟩ <;> rw [h] <;> cases w.LeaveGuild e.Guild.Id <;>
    simp [introAttempts, introsSent, adminsAdded]

/-- Witness of C15: a blacklisted guild that was joined a second ago and has
an Administrator role is left, and nothing else is done. -/
theorem guild_create_blacklisted_only_leaves_witness :
    OnGuildCreate exampleCollaborators exampleWorker blacklistedGuildCreate
      = [Action.leaveGuild 66] :=
  (guild_create_blacklisted_only_leaves exampleCollaborators exampleWorker
    blacklistedGuildCreate rfl).1

/-- C16: for a guild that is not blacklisted, when it was joined less than one
minute ago the intro message is attempted for the owner, once, and after that
for the user returned by `getInviter` when that id is not zero and not the
owner's, and for nobody else; no user is attempted twice; when the guild was
joined one minute ago or earlier, no intro message is attempted or sent. -/
theorem guild_create_intro_once (w : Collaborators) (worker : WorkerContext) (e : GuildCreate)
    (hb : w.IsGuildBlacklisted e.Guild.Id = false) :
    (w.Now - e.JoinedAt < Minute →
        introAttempts (OnGuildCreate w worker e)
          = e.Guild.OwnerId
              :: (if (getInviter w worker e.Guild.Id).1 ≠ 0
                    ∧ (getInviter w worker e.Guild.Id).1 ≠ e.Guild.OwnerId then
                  [(getInviter w worker e.Guild.Id).1]
                else []))
      ∧ (introAttempts (OnGuildCreate w worker e)).Nodup
      ∧ (Minute ≤ w.Now - e.JoinedAt →
          introAttempts (OnGuildCreate w worker e) = []
            ∧ introsSent (OnGuildCreate w worker e) = []) := by
  refine ⟨introAttempts_recent w worker e hb, ?_, ?_⟩
  · by_cases hrecent : w.Now - e.JoinedAt < Minute
    · rw [introAttempts_recent w worker e hb hrecent]
      split_ifs with hinv
      · simpa using fun h => hinv.2 h.symm
      · simp
    · rw [OnGuildCreate_old w worker e hb (not_lt.1 hrecent)]
      exact List.nodup_nil
  · intro hold
    rw [OnGuildCreate_old w worker e hb hold]
    exact ⟨rfl, rfl⟩

/-- Witness of C16: for a guild of owner `7` joined a second ago, whose audit
log names user `5` as the one who added the bot, the intro message is attempted
for `7` and then for `5`; for the same guild joined a minute ago, for
nobody. -/
theorem guild_create_intro_once_witness :
    introAttempts (OnGuildCreate exampleCollaborators exampleWorker
        (exampleGuildCreate (99 * 1000000000))) = [7, 5]
      ∧ introAttempts (OnGuildCreate exampleCollaborators exampleWorker
        (exampleGuildCreate (40 * 1000000000))) = [] :=
  ⟨by decide,
    ((guild_create_intro_once exampleCollaborators exampleWorker
      (exampleGuildCreate (40 * 1000000000)) rfl).2.2 (by decide)).1⟩

/-- C17: `getInviter` returns 0 when the audit-log request fails; otherwise it
returns the `UserId` of the first entry, in the order returned, whose
`ActionType` is `EventBotAdd` and whose `TargetId` is the worker's `BotId`, and
0 when there is no such entry; the entries after the first match do not affect
the result. -/
theorem getInviter_first_match (w : Collaborators) (worker : WorkerContext) (guildId : Nat) :
    (∀ err, w.GetGuildAuditLog guildId { ActionType := w.EventBotAdd, Limit := 50 } = .error err →
        (getInviter w worker guildId).1 = 0)
      ∧ (∀ auditLog,
          w.GetGuildAuditLog guildId { ActionType := w.EventBotAdd, Limit := 50 } = .ok auditLog →
          (getInviter w worker guildId).1
            = match auditLog.Entries.find? (fun entry =>
                entry.ActionType == w.EventBotAdd && entry.TargetId == worker.BotId) with
              | some entry => entry.UserId
              | none => 0)
      ∧ (∀ before entry after,
          w.GetGuildAuditLog guildId { ActionType := w.EventBotAdd, Limit := 50 }
            = .ok { Entries := before ++ entry :: after } →
          (∀ x ∈ before, ¬ (x.ActionType = w.EventBotAdd ∧ x.TargetId = worker.BotId)) →
          entry.ActionType = w.EventBotAdd → entry.TargetId = worker.BotId →
          (getInviter w worker guildId).1 = entry.UserId)
      ∧ (∀ auditLog,
          w.GetGuildAuditLog guildId { ActionType := w.EventBotAdd, Limit := 50 } = .ok auditLog →
          (∀ x ∈ auditLog.Entries,
            ¬ (x.ActionType = w.EventBotAdd ∧ x.TargetId = worker.BotId)) →
          (getInviter w worker guildId).1 = 0) := by
  refine ⟨?_, ?_, ?_, ?_⟩
  · intro err h
    rw [getInviter_error w worker guildId err h]
  · intro auditLog h
    rw [getInviter_ok w worker guildId auditLog h]
    exact findInviter_eq_find w worker auditLog.Entries
  · intro before entry after h hbefore htype htarget
    rw [getInviter_ok w worker guildId _ h]
    exact findInviter_append w worker before after entry hbefore htype htarget
  · intro auditLog h hnone
    rw [getInviter_ok w worker guildId auditLog h]
    simp only
    rw [findInviter_eq_find, List.find?_eq_none.2]
    intro x hx
    have := hnone x hx
    simpa using this

/-- Witness of C17: in an audit log whose entries say that user `8` added
another bot, then user `5` added this bot, then user `6` added this bot,
`getInviter` returns `5`. -/
theorem getInviter_first_match_witness :
    (getInviter exampleCollaborators exampleWorker 9).1 = 5 :=
  (getInviter_first_match exampleCollaborators exampleWorker 9).2.2.1
    [{ ActionType := 28, TargetId := 2, UserId := 8 }]
    { ActionType := 28, TargetId := 1, UserId := 5 }
    [{ ActionType := 28, TargetId := 1, UserId := 6 }] rfl (by decide) rfl rfl

end Worker
